import Mathlib

/-! Verification of the chops channel-operations library.

The development shallowly embeds the Go source of the chops package:

* the probe operations TryRecv, TrySend, TryClose, IsClosed over a
  type-erased channel handle (chops.go);
* the retry combinator SendOr (chops.go);
* the fan-in merger MakeFanIn and the fan-out broadcaster MakeFanOut
  in their current revision (fan.go, newer revision), modelled as
  small-step transition systems over explicit session states;
* the older revision of the MakeFanIn general path (fan.go, older
  revision), used to compare the two revisions.

Modelling conventions.  A Go channel is embedded as a record with an
element-type tag, a capacity, a FIFO buffer, a flag recording a parked
receiver (the rendezvous partner of an otherwise blocked send), and a
closed flag.  Go interface values are embedded as a tagged value type
TVal; the dynamic type check performed by reflect is the function
assignable.  Panics (contract violations, type assertions) are embedded
as Except or Option results.  Blocking operations of the background
goroutines are broken at their suspension points into explicit task
states, and every execution is an interleaving of task steps and
environment steps (producer sends, producer closes, consumer receives,
closing the stop channel).  Environment steps obey the documented usage
contract of the library: nobody sends on a closed channel and nobody
sends on the stop channel.
-/

/-- Element-type tags for the dynamic (reflect-based) type checks.
tIface stands for the Go type interface, the top type; the others stand
for representative concrete element types. -/
inductive Ty where
  | tIface
  | tUnit
  | tNat
  | tStr
deriving DecidableEq, Repr

/-- Type-erased (boxed) values, the embedding of Go interface values.
vNil is the zero value of the interface type itself. -/
inductive TVal where
  | vNil
  | vUnit
  | vNat (n : Nat)
  | vStr (s : String)
deriving DecidableEq, Repr

/-- Dynamic type of a boxed value, as reflect.TypeOf reports it. -/
def tyOf : TVal → Ty
  | .vNil => .tIface
  | .vUnit => .tUnit
  | .vNat _ => .tNat
  | .vStr _ => .tStr

/-- Zero value of an element type, what a receive from a closed drained
channel yields. -/
def zeroOf : Ty → TVal
  | .tIface => .vNil
  | .tUnit => .vUnit
  | .tNat => .vNat 0
  | .tStr => .vStr ""

/-- Go assignability of a value of dynamic type d to a channel of element
type e: everything is assignable to interface, otherwise the types must
agree.  This is the check xt.AssignableTo(v.Type().Elem()) in TrySend and
SendOr. -/
def assignable (d e : Ty) : Bool :=
  e = Ty.tIface || d = e

/-- Status of a non-blocking channel operation (chops.Status). -/
inductive Status where
  | Ok
  | Closed
  | Blocked
deriving DecidableEq, Repr

/-- A Go channel state: element type, capacity, FIFO buffer, whether a
receiver is currently parked on the empty channel (the rendezvous partner
that lets an otherwise blocked send complete), and the closed flag. -/
structure GoChan where
  elemTy : Ty
  cap : Nat
  buf : List TVal
  recvReady : Bool
  closed : Bool
deriving DecidableEq, Repr

/-- A freshly made channel: make(chan T, cap). -/
def mkChan (t : Ty) (cap : Nat) : GoChan :=
  { elemTy := t, cap := cap, buf := [], recvReady := false, closed := false }

/-- TryRecv (chops.go): non-blocking receive.  A buffered item is
delivered with Ok; a closed drained channel yields the zero value with
Closed; an open empty channel yields Blocked.  The channel argument is
already known to be a channel, so the assertChanValue guard cannot fire. -/
def tryRecv (c : GoChan) : (Option TVal × Status) × GoChan :=
  match c.buf with
  | v :: rest => ((some v, Status.Ok), { c with buf := rest })
  | [] =>
    if c.closed then ((some (zeroOf c.elemTy), Status.Closed), c)
    else ((none, Status.Blocked), c)

/-- The raw non-blocking send after the assignability check has passed:
the Go runtime panics on a closed channel (recovered by TrySend into the
Closed status, checked first because the runtime checks closed before
readiness), accepts when the buffer has room or a receiver is parked, and
otherwise reports Blocked. -/
def trySendRaw (c : GoChan) (x : TVal) : Status × GoChan :=
  if c.closed then (Status.Closed, c)
  else if c.buf.length < c.cap then (Status.Ok, { c with buf := c.buf ++ [x] })
  else if c.recvReady then (Status.Ok, { c with recvReady := false })
  else (Status.Blocked, c)

/-- TrySend (chops.go): none embeds the contract-violation panic raised
when the dynamic type of x is not assignable to the element type of the
channel; otherwise the recovered non-blocking send runs. -/
def trySend (c : GoChan) (x : TVal) : Option (Status × GoChan) :=
  if assignable (tyOf x) c.elemTy then some (trySendRaw c x) else none

/-- TryClose (chops.go): close the channel; report true exactly when this
call transitioned it from open to closed.  The double-close panic of the
runtime is recovered into the false result. -/
def tryClose (c : GoChan) : Bool × GoChan :=
  (!c.closed, { c with closed := true })

/-- IsClosed (chops.go): the direct peek at the closed word of the
runtime channel structure.  In this sequential embedding the dirty read
is exact; its documented contract is that true is durable and false is
only a hint. -/
def isClosed (c : GoChan) : Bool :=
  c.closed

/-- One operation that some party can run against a channel; used to
state that the closed flag is monotone under every one of them. -/
inductive ChanOp where
  | opSend (x : TVal)
  | opRecv
  | opClose
deriving DecidableEq, Repr

/-- State effect of one operation (a send whose type check panics leaves
the state unchanged). -/
def applyOp (c : GoChan) : ChanOp → GoChan
  | .opSend x =>
    match trySend c x with
    | some (_, c') => c'
    | none => c
  | .opRecv => (tryRecv c).2
  | .opClose => (tryClose c).2

/-- Run a sequence of operations left to right. -/
def execOps (ops : List ChanOp) (c : GoChan) : GoChan :=
  ops.foldl applyOp c

/-- Events of one SendOr run: a fallback invocation, the successful
delivery, or the observation that the channel is closed. -/
inductive SendEv where
  | fallback
  | delivered
  | observedClosed
deriving DecidableEq, Repr

/-- The retry loop of SendOr (chops.go) after the assignability check:
each iteration attempts the non-blocking send; a recovered send-on-closed
panic ends the loop with false, success ends it with true, and Blocked
runs the caller-supplied fallback f (modelled as an arbitrary
transformation of the channel state, covering concurrent receivers,
closers and new senders) and retries.  The Nat fuel bounds the number of
iterations; none embeds an execution that is still retrying. -/
def sendOrTr : Nat → GoChan → TVal → (GoChan → GoChan) →
    Option (List SendEv × Bool × GoChan)
  | 0, _, _, _ => none
  | fuel + 1, c, x, f =>
    match trySendRaw c x with
    | (Status.Closed, c') => some ([SendEv.observedClosed], false, c')
    | (Status.Ok, c') => some ([SendEv.delivered], true, c')
    | (Status.Blocked, _) =>
      match sendOrTr fuel (f c) x f with
      | none => none
      | some (tr, b, c') => some (SendEv.fallback :: tr, b, c')

/-- SendOr (chops.go): the assignability check panics (Except.error) on a
contract violation, otherwise the retry loop runs. -/
def SendOr (fuel : Nat) (c : GoChan) (x : TVal) (f : GoChan → GoChan) :
    Except String (Option (List SendEv × Bool × GoChan)) :=
  if assignable (tyOf x) c.elemTy then Except.ok (sendOrTr fuel c x f)
  else Except.error "cannot send: incompatible element type"

/-- A Go interface value passed to MakeFanIn or MakeFanOut: either a
channel handle (with its element type and current contents) or some
non-channel value, on which assertChanValue panics. -/
inductive Handle where
  | hChan (elemTy : Ty) (pending : List TVal) (closed : Bool)
  | hNonChan
deriving DecidableEq, Repr

/-- Whether assertChanValue accepts the handle. -/
def isChanHandle : Handle → Bool
  | .hChan _ _ _ => true
  | .hNonChan => false

/-- One input channel of a fan-in session as seen by the merging task.
pending lists the items the task can still receive from it (buffered
items together with the items of currently parked senders, in order);
removed is the tombstone flag of its slot in the cases array
(cases[chosen].Chan = reflect.Value marks the slot invalid without
reallocating the slice). -/
structure InCh where
  elemTy : Ty
  pending : List TVal
  closed : Bool
  removed : Bool
deriving DecidableEq, Repr

/-- Control state of the merging goroutine of the current MakeFanIn:
noTask for the K = 0 arm that starts no goroutine, selecting at the
reflect.Select call, sending v blocked in out <- v, fdone after the
goroutine returned (running the deferred close(out) on the way out). -/
inductive FanTask where
  | noTask
  | selecting
  | sending (v : TVal)
  | fdone
deriving DecidableEq, Repr

/-- A fan-in session of the current MakeFanIn revision: the input
channels, the output channel (buffer, capacity, closed flag), the stop
channel (env only ever closes it, so only its closed flag matters), the
live-input counter remaining of the goroutine, and the task state. -/
structure FanInSys where
  inputs : List InCh
  outBuf : List TVal
  outCap : Nat
  outClosed : Bool
  stopClosed : Bool
  remaining : Nat
  task : FanTask
deriving DecidableEq, Repr

/-- Turn an accepted channel handle into a live input slot. -/
def handleToInCh : Handle → InCh
  | .hChan t p b => { elemTy := t, pending := p, closed := b, removed := false }
  | .hNonChan => { elemTy := Ty.tIface, pending := [], closed := false, removed := false }

/-- MakeFanIn of the current revision (fan.go, newer revision).
K = 0: the output is created unbuffered and closed at once and no
goroutine starts.  K = 1: the fast path type-asserts chs[0].(chan
interface) and panics when the sole input has any other element type.
K >= 2: every handle passes assertChanValue (any channel element type is
accepted), the cases array holds the K inputs plus the stop channel, and
the goroutine starts at the select.  The K = 1 goroutine (select on stop
and the sole input, returning on either closing and forwarding
otherwise, with close(out) deferred) takes exactly the transitions of
the general machine with one input, so both are embedded by the same
step relation. -/
def mkFanIn (outCap : Nat) (chs : List Handle) : Except String FanInSys :=
  match chs with
  | [] =>
    Except.ok { inputs := [], outBuf := [], outCap := 0, outClosed := true,
                stopClosed := false, remaining := 0, task := FanTask.noTask }
  | [Handle.hChan Ty.tIface p b] =>
    Except.ok { inputs := [{ elemTy := Ty.tIface, pending := p, closed := b, removed := false }],
                outBuf := [], outCap := outCap, outClosed := false,
                stopClosed := false, remaining := 1, task := FanTask.selecting }
  | [_] => Except.error "interface conversion: the input is not chan interface"
  | _ =>
    if chs.all isChanHandle then
      Except.ok { inputs := chs.map handleToInCh, outBuf := [], outCap := outCap,
                  outClosed := false, stopClosed := false,
                  remaining := chs.length, task := FanTask.selecting }
    else Except.error "not a channel"

/-- Environment steps around a fan-in session: a producer completes a
send on an open input (appending to the items the task can receive), a
producer closes its open input, the caller closes the stop channel, a
consumer takes a buffered item from the output, or a consumer arrives at
the empty unbuffered output and completes the rendezvous with the
blocked forwarding send of the task.  Producers respect the element type
of their own channel and nobody sends on the stop channel or on a closed
channel, per the package documentation. -/
inductive FanInEnv : FanInSys → FanInSys → Prop where
  | envSend (s : FanInSys) (i : Nat) (v : TVal) (h : i < s.inputs.length)
      (hopen : (s.inputs.get ⟨i, h⟩).closed = false)
      (hty : assignable (tyOf v) (s.inputs.get ⟨i, h⟩).elemTy = true) :
      FanInEnv s { s with
        inputs := s.inputs.set i { s.inputs.get ⟨i, h⟩ with pending := (s.inputs.get ⟨i, h⟩).pending ++ [v] } }
  | envCloseInput (s : FanInSys) (i : Nat) (h : i < s.inputs.length)
      (hopen : (s.inputs.get ⟨i, h⟩).closed = false) :
      FanInEnv s { s with
        inputs := s.inputs.set i { s.inputs.get ⟨i, h⟩ with closed := true } }
  | envCloseStop (s : FanInSys) (h : s.stopClosed = false) :
      FanInEnv s { s with stopClosed := true }
  | envRecvOut (s : FanInSys) (v : TVal) (rest : List TVal)
      (h : s.outBuf = v :: rest) :
      FanInEnv s { s with outBuf := rest }
  | envRendezvousOut (s : FanInSys) (v : TVal) (ht : s.task = FanTask.sending v)
      (hcap : s.outCap = 0) (hbuf : s.outBuf = []) :
      FanInEnv s { s with task := FanTask.selecting }

/-- Steps the merging goroutine of the current revision can take on its
own, one per arm of the select loop body.  taskStopFire: the stop case
fires with ok = false (chosen = len(cases)-1), the goroutine returns and
the deferred close(out) runs.  taskRecv: a live input case delivers an
item, which the task then forwards (the blocking send out <- v is the
sending state; it completes on its own only when the buffer has room).
taskLastClosed: the last live input reports closed and drained, the
goroutine returns and close(out) runs.  taskTomb: a non-last live input
reports closed and drained, its slot is tombstoned and remaining
decremented. -/
inductive FanInTask : FanInSys → FanInSys → Prop where
  | taskStopFire (s : FanInSys) (ht : s.task = FanTask.selecting)
      (hstop : s.stopClosed = true) :
      FanInTask s { s with task := FanTask.fdone, outClosed := true }
  | taskRecv (s : FanInSys) (i : Nat) (v : TVal) (rest : List TVal)
      (h : i < s.inputs.length) (ht : s.task = FanTask.selecting)
      (hrem : (s.inputs.get ⟨i, h⟩).removed = false)
      (hpend : (s.inputs.get ⟨i, h⟩).pending = v :: rest) :
      FanInTask s { s with
        inputs := s.inputs.set i { s.inputs.get ⟨i, h⟩ with pending := rest },
        task := FanTask.sending v }
  | taskLastClosed (s : FanInSys) (i : Nat) (h : i < s.inputs.length)
      (ht : s.task = FanTask.selecting)
      (hrem : (s.inputs.get ⟨i, h⟩).removed = false)
      (hcl : (s.inputs.get ⟨i, h⟩).closed = true)
      (hpend : (s.inputs.get ⟨i, h⟩).pending = [])
      (hlast : s.remaining = 1) :
      FanInTask s { s with task := FanTask.fdone, outClosed := true }
  | taskTomb (s : FanInSys) (i : Nat) (h : i < s.inputs.length)
      (ht : s.task = FanTask.selecting)
      (hrem : (s.inputs.get ⟨i, h⟩).removed = false)
      (hcl : (s.inputs.get ⟨i, h⟩).closed = true)
      (hpend : (s.inputs.get ⟨i, h⟩).pending = [])
      (hnotlast : s.remaining ≠ 1) :
      FanInTask s { s with
        inputs := s.inputs.set i { s.inputs.get ⟨i, h⟩ with removed := true },
        remaining := s.remaining - 1 }
  | taskSendDone (s : FanInSys) (v : TVal) (ht : s.task = FanTask.sending v)
      (hroom : s.outBuf.length < s.outCap) :
      FanInTask s { s with outBuf := s.outBuf ++ [v], task := FanTask.selecting }

/-- A step of the whole fan-in system: environment or task. -/
def FanInStep (s s' : FanInSys) : Prop :=
  FanInEnv s s' ∨ FanInTask s s'

/-- Reflexive-transitive closure of a step relation: finite executions. -/
inductive Steps {α : Type} (r : α → α → Prop) : α → α → Prop where
  | refl (a : α) : Steps r a a
  | tail {a b c : α} : Steps r a b → r b c → Steps r a c

/-- One output channel of a fan-out session: its buffer, its closed
flag, and the ghost history of every item ever delivered into it
(buffered or handed directly to a receiver), used to state ordering. -/
structure OutCh where
  buf : List TVal
  closed : Bool
  hist : List TVal
deriving DecidableEq, Repr

/-- Control state of the broadcasting goroutine of MakeFanOut:
receiving at v.Recv(), broadcasting v idx blocked in the send of v to
output idx of the for-range loop, closing idx inside the closing
for-range loop about to close output idx, done after return. -/
inductive FOTask where
  | receiving
  | broadcasting (v : TVal) (idx : Nat)
  | closing (idx : Nat)
  | done
deriving DecidableEq, Repr

/-- A fan-out session of MakeFanOut: the input channel (pending items
the task can still receive, closed flag, and the ghost history of every
item ever sent into it), the ghost list of items the task has received
so far, the output channels, and the task state. -/
structure FanOutSys where
  outCap : Nat
  inPending : List TVal
  inClosed : Bool
  inHist : List TVal
  consumed : List TVal
  outs : List OutCh
  task : FOTask
deriving DecidableEq, Repr

/-- MakeFanOut (fan.go): assertChanValue panics on a non-channel
argument; n = 0 returns nil and starts no goroutine (Option.none); for
n >= 1 the n outputs are created with capacity outCap and the
broadcasting goroutine starts at the receive.  The n = 1 fast path
(receive, forward 1:1, close the sole output on input closure) takes
exactly the transitions of the general machine with one output, so both
arms are embedded by the same step relation. -/
def mkFanOut (n outCap : Nat) (ch : Handle) : Except String (Option FanOutSys) :=
  match ch with
  | Handle.hNonChan => Except.error "not a channel"
  | Handle.hChan _ p b =>
    if n = 0 then Except.ok none
    else
      Except.ok (some { outCap := outCap, inPending := p, inClosed := b,
                        inHist := p, consumed := [],
                        outs := List.replicate n { buf := [], closed := false, hist := [] },
                        task := FOTask.receiving })

/-- Environment steps around a fan-out session: a producer completes a
send on the open input, the producer closes the open input, a consumer
takes a buffered item from output j, or a consumer arrives at the empty
unbuffered output the task is currently blocked sending to and completes
the rendezvous (the delivered item enters that output ghost history). -/
inductive FanOutEnv : FanOutSys → FanOutSys → Prop where
  | envSendIn (s : FanOutSys) (v : TVal) (hopen : s.inClosed = false) :
      FanOutEnv s { s with inPending := s.inPending ++ [v], inHist := s.inHist ++ [v] }
  | envCloseIn (s : FanOutSys) (hopen : s.inClosed = false) :
      FanOutEnv s { s with inClosed := true }
  | envRecvOut (s : FanOutSys) (j : Nat) (v : TVal) (rest : List TVal)
      (h : j < s.outs.length)
      (hbuf : (s.outs.get ⟨j, h⟩).buf = v :: rest) :
      FanOutEnv s { s with
        outs := s.outs.set j { s.outs.get ⟨j, h⟩ with buf := rest } }
  | envRendezvousOut (s : FanOutSys) (v : TVal) (j : Nat)
      (h : j < s.outs.length) (ht : s.task = FOTask.broadcasting v j)
      (hcap : s.outCap = 0) (hbuf : (s.outs.get ⟨j, h⟩).buf = []) :
      FanOutEnv s { s with
        outs := s.outs.set j { s.outs.get ⟨j, h⟩ with hist := (s.outs.get ⟨j, h⟩).hist ++ [v] },
        task := if j + 1 = s.outs.length then FOTask.receiving else FOTask.broadcasting v (j + 1) }

/-- Steps the broadcasting goroutine takes on its own.  foRecv: x, ok :=
v.Recv() delivers an item and the for-range broadcast starts at output
0.  foRecvClosed: the receive reports the input closed and drained, so
the closing for-range loop starts.  foSendDone: the send of the current
item to output idx completes because the buffer has room, and the task
moves to the next output or back to the receive.  foCloseOut: close the
current output and move on, ending with return. -/
inductive FanOutTask : FanOutSys → FanOutSys → Prop where
  | foRecv (s : FanOutSys) (v : TVal) (rest : List TVal)
      (ht : s.task = FOTask.receiving) (hpend : s.inPending = v :: rest) :
      FanOutTask s { s with
        inPending := rest, consumed := s.consumed ++ [v],
        task := FOTask.broadcasting v 0 }
  | foRecvClosed (s : FanOutSys) (ht : s.task = FOTask.receiving)
      (hpend : s.inPending = []) (hcl : s.inClosed = true) :
      FanOutTask s { s with task := FOTask.closing 0 }
  | foSendDone (s : FanOutSys) (v : TVal) (j : Nat)
      (h : j < s.outs.length) (ht : s.task = FOTask.broadcasting v j)
      (hroom : (s.outs.get ⟨j, h⟩).buf.length < s.outCap) :
      FanOutTask s { s with
        outs := s.outs.set j { s.outs.get ⟨j, h⟩ with buf := (s.outs.get ⟨j, h⟩).buf ++ [v], hist := (s.outs.get ⟨j, h⟩).hist ++ [v] },
        task := if j + 1 = s.outs.length then FOTask.receiving else FOTask.broadcasting v (j + 1) }
  | foCloseOut (s : FanOutSys) (j : Nat)
      (h : j < s.outs.length) (ht : s.task = FOTask.closing j) :
      FanOutTask s { s with
        outs := s.outs.set j { s.outs.get ⟨j, h⟩ with closed := true },
        task := if j + 1 = s.outs.length then FOTask.done else FOTask.closing (j + 1) }

/-- A step of the whole fan-out system: environment or task. -/
def FanOutStep (s s' : FanOutSys) : Prop :=
  FanOutEnv s s' ∨ FanOutTask s s'

/-- Control state of the aggregating goroutine of the older MakeFanIn
revision (the go RecvOr(stop, f) form).  atCheck is the top of the
RecvOr loop, at the non-blocking TryRecv(stop); inSelect is inside f at
reflect.Select over the input cases only (the stop channel is not one of
the cases in this revision, so the task notices stop only back at
atCheck); sending v is the blocked forward out <- v inside f; odone is
after RecvOr returned, which ends the goroutine without any deferred
close of the output. -/
inductive OldTask where
  | atCheck
  | inSelect
  | sending (v : TVal)
  | odone
deriving DecidableEq, Repr

/-- A fan-in session of the older revision general path.  stopBuf counts
the values buffered in the stop channel, which this revision creates
with capacity 1 and itself sends on (TrySend(stop, ...)) to end the
RecvOr loop after closing the output. -/
structure OldFanInSys where
  inputs : List InCh
  outBuf : List TVal
  outCap : Nat
  outClosed : Bool
  stopClosed : Bool
  stopBuf : Nat
  remaining : Nat
  task : OldTask
deriving DecidableEq, Repr

/-- The K >= 2 general path of the older MakeFanIn revision.  The K = 0
arm is textually identical to the current revision and the K = 1 arm is
observably identical to it (its select loop closes the output and
returns on either stop or input closure), so only the general path,
where the two revisions differ, is modelled.  Each handle passes
assertChanValue, the cases array holds only the K inputs, the stop
channel has capacity 1, and the goroutine starts at the TryRecv(stop)
check of RecvOr. -/
def mkFanInOldGen (outCap : Nat) (chs : List Handle) : Except String OldFanInSys :=
  if chs.length < 2 then Except.error "general path needs at least two inputs"
  else if chs.all isChanHandle then
    Except.ok { inputs := chs.map handleToInCh, outBuf := [], outCap := outCap,
                outClosed := false, stopClosed := false, stopBuf := 0,
                remaining := chs.length, task := OldTask.atCheck }
  else Except.error "not a channel"

/-- Environment steps around an older-revision session; identical to the
current revision (nobody but the session itself sends on stop). -/
inductive OldFanInEnv : OldFanInSys → OldFanInSys → Prop where
  | envSend (s : OldFanInSys) (i : Nat) (v : TVal) (h : i < s.inputs.length)
      (hopen : (s.inputs.get ⟨i, h⟩).closed = false)
      (hty : assignable (tyOf v) (s.inputs.get ⟨i, h⟩).elemTy = true) :
      OldFanInEnv s { s with
        inputs := s.inputs.set i { s.inputs.get ⟨i, h⟩ with pending := (s.inputs.get ⟨i, h⟩).pending ++ [v] } }
  | envCloseInput (s : OldFanInSys) (i : Nat) (h : i < s.inputs.length)
      (hopen : (s.inputs.get ⟨i, h⟩).closed = false) :
      OldFanInEnv s { s with
        inputs := s.inputs.set i { s.inputs.get ⟨i, h⟩ with closed := true } }
  | envCloseStop (s : OldFanInSys) (h : s.stopClosed = false) :
      OldFanInEnv s { s with stopClosed := true }
  | envRecvOut (s : OldFanInSys) (v : TVal) (rest : List TVal)
      (h : s.outBuf = v :: rest) :
      OldFanInEnv s { s with outBuf := rest }
  | envRendezvousOut (s : OldFanInSys) (v : TVal) (ht : s.task = OldTask.sending v)
      (hcap : s.outCap = 0) (hbuf : s.outBuf = []) :
      OldFanInEnv s { s with task := OldTask.atCheck }

/-- Steps the older-revision goroutine takes on its own.
oldCheckVal / oldCheckClosed: TryRecv(stop) finds a buffered value or
the closed signal, so RecvOr returns and the goroutine ends without
closing the output.  oldCheckPass: the stop channel is open and empty at
the instant of the check, so RecvOr runs f, entering the select over the
input cases (once inside, a later stop closure is not noticed until an
input case fires).  oldSelRecv: a live input delivers an item, which f
forwards with the blocking out <- send.  oldSelLastClosed: the last live
input reports closed and drained; f closes the output and does
TrySend(stop, ...) to end the RecvOr loop (on the capacity-1 stop
channel the send buffers a value if stop is open and empty, and the
recovered panic or Blocked result is merely logged otherwise).
oldSelTomb: a non-last input closed and drained, tombstone and continue.
oldSendDone: the forward completes because the output buffer has room,
and control returns to the top of the RecvOr loop. -/
inductive OldFanInTask : OldFanInSys → OldFanInSys → Prop where
  | oldCheckVal (s : OldFanInSys) (ht : s.task = OldTask.atCheck)
      (hv : s.stopBuf ≠ 0) :
      OldFanInTask s { s with stopBuf := s.stopBuf - 1, task := OldTask.odone }
  | oldCheckClosed (s : OldFanInSys) (ht : s.task = OldTask.atCheck)
      (hv : s.stopBuf = 0) (hstop : s.stopClosed = true) :
      OldFanInTask s { s with task := OldTask.odone }
  | oldCheckPass (s : OldFanInSys) (ht : s.task = OldTask.atCheck)
      (hv : s.stopBuf = 0) (hstop : s.stopClosed = false) :
      OldFanInTask s { s with task := OldTask.inSelect }
  | oldSelRecv (s : OldFanInSys) (i : Nat) (v : TVal) (rest : List TVal)
      (h : i < s.inputs.length) (ht : s.task = OldTask.inSelect)
      (hrem : (s.inputs.get ⟨i, h⟩).removed = false)
      (hpend : (s.inputs.get ⟨i, h⟩).pending = v :: rest) :
      OldFanInTask s { s with
        inputs := s.inputs.set i { s.inputs.get ⟨i, h⟩ with pending := rest },
        task := OldTask.sending v }
  | oldSelLastClosed (s : OldFanInSys) (i : Nat) (h : i < s.inputs.length)
      (ht : s.task = OldTask.inSelect)
      (hrem : (s.inputs.get ⟨i, h⟩).removed = false)
      (hcl : (s.inputs.get ⟨i, h⟩).closed = true)
      (hpend : (s.inputs.get ⟨i, h⟩).pending = [])
      (hlast : s.remaining = 1) :
      OldFanInTask s { s with
        outClosed := true,
        stopBuf := if s.stopClosed = false ∧ s.stopBuf = 0 then 1 else s.stopBuf,
        task := OldTask.atCheck }
  | oldSelTomb (s : OldFanInSys) (i : Nat) (h : i < s.inputs.length)
      (ht : s.task = OldTask.inSelect)
      (hrem : (s.inputs.get ⟨i, h⟩).removed = false)
      (hcl : (s.inputs.get ⟨i, h⟩).closed = true)
      (hpend : (s.inputs.get ⟨i, h⟩).pending = [])
      (hnotlast : s.remaining ≠ 1) :
      OldFanInTask s { s with
        inputs := s.inputs.set i { s.inputs.get ⟨i, h⟩ with removed := true },
        remaining := s.remaining - 1, task := OldTask.atCheck }
  | oldSendDone (s : OldFanInSys) (v : TVal) (ht : s.task = OldTask.sending v)
      (hroom : s.outBuf.length < s.outCap) :
      OldFanInTask s { s with outBuf := s.outBuf ++ [v], task := OldTask.atCheck }

/-- A step of the whole older-revision system: environment or task. -/
def OldFanInStep (s s' : OldFanInSys) : Prop :=
  OldFanInEnv s s' ∨ OldFanInTask s s'

/-- Number of live (not tombstoned) inputs; the meaning of the
remaining counter of the merging goroutine. -/
def liveCount (l : List InCh) : Nat :=
  l.countP (fun c => !c.removed)

/-- Inductive invariant of a fan-in session of the current revision:
remaining counts the live inputs, every tombstoned input was closed and
drained when its slot was invalidated (and stays so, because nobody
sends on a closed channel), and a closed output means the stop channel
was closed or every input is closed and drained. -/
def fanInInv (s : FanInSys) : Prop :=
  s.remaining = liveCount s.inputs
  ∧ (∀ c ∈ s.inputs, c.removed = true → c.closed = true ∧ c.pending = [])
  ∧ (s.outClosed = true →
      s.stopClosed = true ∨ ∀ c ∈ s.inputs, c.closed = true ∧ c.pending = [])

/-- Per-output ghost-history shape during a broadcast: outputs below the
cursor already hold the full consumed sequence, outputs at or above it
still hold the sequence without the item being broadcast. -/
def outsHist (outs : List OutCh) (consumed pre : List TVal) (j : Nat) : Prop :=
  ∀ jj (h : jj < outs.length),
    (outs.get ⟨jj, h⟩).hist = if jj < j then consumed else pre

/-- Inductive invariant of a fan-out session with n outputs: the length
is constant, the input ghost history splits into the consumed part and
the still-pending part, the output histories follow the broadcast
cursor, and outputs are closed exactly up to the cursor of the closing
loop, which only runs once the input was seen closed and drained. -/
def fanOutInv (n : Nat) (s : FanOutSys) : Prop :=
  s.outs.length = n
  ∧ 0 < n
  ∧ s.inHist = s.consumed ++ s.inPending
  ∧ (∀ v j, s.task = FOTask.broadcasting v j →
      j < s.outs.length ∧ ∃ pre, s.consumed = pre ++ [v] ∧ outsHist s.outs s.consumed pre j)
  ∧ (s.task = FOTask.receiving ∨ (∃ j, s.task = FOTask.closing j) ∨ s.task = FOTask.done →
      outsHist s.outs s.consumed s.consumed 0)
  ∧ (∀ j, s.task = FOTask.closing j →
      j < s.outs.length ∧ s.inClosed = true ∧ s.inPending = [] ∧
        ∀ jj (h : jj < s.outs.length), (s.outs.get ⟨jj, h⟩).closed = decide (jj < j))
  ∧ (s.task = FOTask.done →
      s.inClosed = true ∧ s.inPending = [] ∧
        ∀ jj (h : jj < s.outs.length), (s.outs.get ⟨jj, h⟩).closed = true)
  ∧ (s.task = FOTask.receiving ∨ (∃ v j, s.task = FOTask.broadcasting v j) →
      ∀ jj (h : jj < s.outs.length), (s.outs.get ⟨jj, h⟩).closed = false)

/-- Session used against the prompt-cancellation claim: two open nat
inputs, the first holding one item, and an unbuffered output. -/
def c1Init : FanInSys :=
  { inputs := [{ elemTy := Ty.tNat, pending := [TVal.vNat 1], closed := false, removed := false },
               { elemTy := Ty.tNat, pending := [], closed := false, removed := false }],
    outBuf := [], outCap := 0, outClosed := false, stopClosed := false,
    remaining := 2, task := FanTask.selecting }

/-- c1Init after the task took the item of input 0 and is blocked
forwarding it to the unbuffered output. -/
def c1Mid : FanInSys :=
  { inputs := [{ elemTy := Ty.tNat, pending := [], closed := false, removed := false },
               { elemTy := Ty.tNat, pending := [], closed := false, removed := false }],
    outBuf := [], outCap := 0, outClosed := false, stopClosed := false,
    remaining := 2, task := FanTask.sending (TVal.vNat 1) }

/-- c1Mid after the caller closed the stop channel: the task is still
blocked in out <- v, the output is still open. -/
def c1Stuck : FanInSys :=
  { c1Mid with stopClosed := true }

/-- The sessions the two revisions build for the same call
MakeFanIn(2, ch0, ch1) with two open idle inputs of element type
interface, the configuration of the test TestMakeFanIn and its
Two-closed case. -/
def c10Handles : List Handle :=
  [Handle.hChan Ty.tIface [] false, Handle.hChan Ty.tIface [] false]

/-- Session of the current revision for c10Handles. -/
def c10NewInit : FanInSys :=
  { inputs := [{ elemTy := Ty.tIface, pending := [], closed := false, removed := false },
               { elemTy := Ty.tIface, pending := [], closed := false, removed := false }],
    outBuf := [], outCap := 2, outClosed := false, stopClosed := false,
    remaining := 2, task := FanTask.selecting }

/-- Current revision after close(stop) and one select step: the task
took the stop case, returned, and the deferred close(out) ran. -/
def c10NewFinal : FanInSys :=
  { c10NewInit with stopClosed := true, outClosed := true, task := FanTask.fdone }

/-- Session of the older revision for c10Handles. -/
def c10OldInit : OldFanInSys :=
  { inputs := [{ elemTy := Ty.tIface, pending := [], closed := false, removed := false },
               { elemTy := Ty.tIface, pending := [], closed := false, removed := false }],
    outBuf := [], outCap := 2, outClosed := false, stopClosed := false,
    stopBuf := 0, remaining := 2, task := OldTask.atCheck }

/-- Older revision after close(stop) and one TryRecv(stop) check: RecvOr
returned and the goroutine ended, but the output was never closed. -/
def c10OldFinal : OldFanInSys :=
  { c10OldInit with stopClosed := true, task := OldTask.odone }

/-- The K = 0 fan-in session: output created closed, no goroutine. -/
def fanInK0 : FanInSys :=
  { inputs := [], outBuf := [], outCap := 0, outClosed := true,
    stopClosed := false, remaining := 0, task := FanTask.noTask }

/-- A fresh fan-out session with two outputs of capacity 1 over a fresh
input channel. -/
def fanOut2Init : FanOutSys :=
  { outCap := 1, inPending := [], inClosed := false, inHist := [],
    consumed := [], outs := List.replicate 2 { buf := [], closed := false, hist := [] },
    task := FOTask.receiving }

/-- c1Init after the caller closed the stop channel while the task is
still at its wait point. -/
def c1SelStop : FanInSys :=
  { c1Init with stopClosed := true }

/-- A running session with one pending nat item and room in the output,
used to exercise the type-independent forwarding of the merging task. -/
def c4Sys : FanInSys :=
  { inputs := [{ elemTy := Ty.tNat, pending := [TVal.vNat 7], closed := false, removed := false }],
    outBuf := [], outCap := 1, outClosed := false, stopClosed := false,
    remaining := 1, task := FanTask.selecting }

/-- A capacity-1 string channel that accepted one item and was then
closed: still holding a buffered item while closed. -/
def c5Chan : GoChan :=
  execOps [ChanOp.opSend (TVal.vStr "A"), ChanOp.opClose] (mkChan Ty.tStr 1)

/-- A closed empty nat channel. -/
def c5Closed : GoChan :=
  execOps [ChanOp.opClose] (mkChan Ty.tNat 0)

theorem countP_set_eq {α : Type} (p : α → Bool) :
    ∀ (l : List α) (i : Nat) (x : α) (h : i < l.length),
      p x = p (l.get ⟨i, h⟩) → (l.set i x).countP p = l.countP p := by
  intro l
  induction l with
  | nil => intro i x h; exact absurd h (by simp)
  | cons a t ih =>
    intro i x h hp
    cases i with
    | zero =>
      simp only [List.get] at hp
      simp [List.set, List.countP_cons, hp]
    | succ n =>
      simp only [List.get] at hp
      have hn : n < t.length := by simpa using h
      simp [List.set, List.countP_cons, ih n x hn hp]

theorem countP_set_tomb {α : Type} (p : α → Bool) :
    ∀ (l : List α) (i : Nat) (x : α) (h : i < l.length),
      p (l.get ⟨i, h⟩) = true → p x = false →
      (l.set i x).countP p + 1 = l.countP p := by
  intro l
  induction l with
  | nil => intro i x h; exact absurd h (by simp)
  | cons a t ih =>
    intro i x h hold hnew
    cases i with
    | zero =>
      simp only [List.get] at hold
      simp [List.set, List.countP_cons, hold, hnew]
    | succ n =>
      simp only [List.get] at hold
      have hn : n < t.length := by simpa using h
      have := ih n x hn hold hnew
      simp [List.set, List.countP_cons]
      omega

theorem countP_one_unique {α : Type} (p : α → Bool) :
    ∀ (l : List α) (i j : Nat) (hi : i < l.length) (hj : j < l.length),
      l.countP p = 1 → i ≠ j → p (l.get ⟨i, hi⟩) = true →
      p (l.get ⟨j, hj⟩) = false := by
  intro l
  induction l with
  | nil => intro i j hi; exact absurd hi (by simp)
  | cons a t ih =>
    intro i j hi hj h1 hij hpi
    rw [List.countP_cons] at h1
    cases i with
    | zero =>
      cases j with
      | zero => exact absurd rfl hij
      | succ m =>
        simp only [List.get] at hpi ⊢
        have hz : t.countP p = 0 := by
          rw [hpi] at h1; simpa using h1
        have hm : m < t.length := by simpa using hj
        have := (List.countP_eq_zero.mp hz) (t.get ⟨m, hm⟩) (List.get_mem t m hm)
        simpa using this
    | succ n =>
      have hn : n < t.length := by simpa using hi
      simp only [List.get] at hpi
      have hpos : 0 < t.countP p :=
        List.countP_pos_iff.mpr ⟨t.get ⟨n, hn⟩, List.get_mem t n hn, hpi⟩
      have hpa : p a = false := by
        by_contra hc
        simp only [Bool.not_eq_false] at hc
        rw [hc] at h1
        have h1' : t.countP p + 1 = 1 := by simpa using h1
        omega
      cases j with
      | zero =>
        simp only [List.get]
        exact hpa
      | succ m =>
        have hm : m < t.length := by simpa using hj
        simp only [List.get]
        have ht1 : t.countP p = 1 := by
          rw [hpa] at h1; simpa using h1
        exact ih n m hn hm ht1 (by omega) hpi


theorem liveCount_map_handle (l : List Handle) :
    liveCount (l.map handleToInCh) = l.length := by
  induction l with
  | nil => rfl
  | cons a t ih =>
    have ha : (!(handleToInCh a).removed) = true := by cases a <;> rfl
    rw [List.map_cons, liveCount, List.countP_cons, ha, if_pos rfl, ← liveCount, ih,
      List.length_cons]

theorem fanInInv_init (outCap : Nat) (chs : List Handle) (s : FanInSys)
    (h : mkFanIn outCap chs = Except.ok s) : fanInInv s := by
  cases chs with
  | nil =>
    simp only [mkFanIn, Except.ok.injEq] at h
    subst h
    exact ⟨rfl, by simp, by simp⟩
  | cons a rest =>
    cases rest with
    | nil =>
      cases a with
      | hNonChan => simp [mkFanIn] at h
      | hChan t p b =>
        cases t with
        | tIface =>
          simp only [mkFanIn, Except.ok.injEq] at h
          subst h
          refine ⟨by simp [liveCount, List.countP_cons], ?_, by simp⟩
          intro c hc
          simp at hc
          subst hc
          simp
        | tUnit => simp [mkFanIn] at h
        | tNat => simp [mkFanIn] at h
        | tStr => simp [mkFanIn] at h
    | cons a2 rest2 =>
      simp only [mkFanIn] at h
      by_cases hall : (a :: a2 :: rest2).all isChanHandle
      · rw [if_pos hall] at h
        simp only [Except.ok.injEq] at h
        subst h
        refine ⟨?_, ?_, by simp⟩
        · show (a :: a2 :: rest2).length = liveCount ((a :: a2 :: rest2).map handleToInCh)
          rw [liveCount_map_handle]
        · intro c hc
          rcases List.mem_map.mp hc with ⟨h0, _, rfl⟩
          cases h0 <;> simp [handleToInCh]
      · rw [if_neg hall] at h
        exact absurd h (by simp)

theorem fanInInv_env (s s' : FanInSys) (hstep : FanInEnv s s')
    (hinv : fanInInv s) : fanInInv s' := by
  obtain ⟨hcnt, hrm, hoc⟩ := hinv
  cases hstep with
  | envSend i v h hopen hty =>
    refine ⟨?_, ?_, ?_⟩
    · exact hcnt.trans (countP_set_eq (fun c : InCh => !c.removed) s.inputs i
        { s.inputs.get ⟨i, h⟩ with pending := (s.inputs.get ⟨i, h⟩).pending ++ [v] } h rfl).symm
    · intro c hc hcr
      rcases List.mem_or_eq_of_mem_set hc with hc' | rfl
      · exact hrm c hc' hcr
      · exfalso
        simp only at hcr
        have := (hrm _ (List.get_mem s.inputs i h) hcr).1
        rw [hopen] at this
        exact Bool.false_ne_true this
    · intro ho
      rcases hoc ho with hstop | hall
      · exact Or.inl hstop
      · exfalso
        have := (hall _ (List.get_mem s.inputs i h)).1
        rw [hopen] at this
        exact Bool.false_ne_true this
  | envCloseInput i h hopen =>
    refine ⟨?_, ?_, ?_⟩
    · exact hcnt.trans (countP_set_eq (fun c : InCh => !c.removed) s.inputs i
        { s.inputs.get ⟨i, h⟩ with closed := true } h rfl).symm
    · intro c hc hcr
      rcases List.mem_or_eq_of_mem_set hc with hc' | rfl
      · exact hrm c hc' hcr
      · simp only at hcr
        exact ⟨rfl, (hrm _ (List.get_mem s.inputs i h) hcr).2⟩
    · intro ho
      rcases hoc ho with hstop | hall
      · exact Or.inl hstop
      · exfalso
        have := (hall _ (List.get_mem s.inputs i h)).1
        rw [hopen] at this
        exact Bool.false_ne_true this
  | envCloseStop h =>
    exact ⟨hcnt, hrm, fun _ => Or.inl rfl⟩
  | envRecvOut v rest h =>
    exact ⟨hcnt, hrm, hoc⟩
  | envRendezvousOut v ht hcap hbuf =>
    exact ⟨hcnt, hrm, hoc⟩

theorem fanInInv_task (s s' : FanInSys) (hstep : FanInTask s s')
    (hinv : fanInInv s) : fanInInv s' := by
  obtain ⟨hcnt, hrm, hoc⟩ := hinv
  cases hstep with
  | taskStopFire ht hstop =>
    exact ⟨hcnt, hrm, fun _ => Or.inl hstop⟩
  | taskRecv i v rest h ht hrem hpend =>
    refine ⟨?_, ?_, ?_⟩
    · exact hcnt.trans (countP_set_eq (fun c : InCh => !c.removed) s.inputs i
        { s.inputs.get ⟨i, h⟩ with pending := rest } h rfl).symm
    · intro c hc hcr
      rcases List.mem_or_eq_of_mem_set hc with hc' | rfl
      · exact hrm c hc' hcr
      · exfalso
        simp only at hcr
        have := (hrm _ (List.get_mem s.inputs i h) hcr).2
        rw [hpend] at this
        exact List.cons_ne_nil v rest this
    · intro ho
      rcases hoc ho with hstop | hall
      · exact Or.inl hstop
      · exfalso
        have := (hall _ (List.get_mem s.inputs i h)).2
        rw [hpend] at this
        exact List.cons_ne_nil v rest this
  | taskLastClosed i h ht hrem hcl hpend hlast =>
    refine ⟨hcnt, hrm, ?_⟩
    intro _
    refine Or.inr ?_
    intro c hc
    rcases List.mem_iff_get.mp hc with ⟨⟨j, hj⟩, rfl⟩
    by_cases hij : i = j
    · subst hij
      exact ⟨hcl, hpend⟩
    · have hone : s.inputs.countP (fun c => !c.removed) = 1 := by
        rw [← liveCount, ← hcnt]
        exact hlast
      have hpi : (!(s.inputs.get ⟨i, h⟩).removed) = true := by rw [hrem]; rfl
      have hj' : j < s.inputs.length := hj
      have hfalse := countP_one_unique (fun c => !c.removed) s.inputs i j h hj' hone hij hpi
      have hremj : (s.inputs.get ⟨j, hj'⟩).removed = true := by
        have h2 : (!(s.inputs.get ⟨j, hj'⟩).removed) = false := hfalse
        simpa using h2
      exact hrm _ (List.get_mem s.inputs j hj') hremj
  | taskTomb i h ht hrem hcl hpend hnotlast =>
    refine ⟨?_, ?_, ?_⟩
    · have hpi : (!(s.inputs.get ⟨i, h⟩).removed) = true := by rw [hrem]; rfl
      have htomb := countP_set_tomb (fun c => !c.removed) s.inputs i
        { s.inputs.get ⟨i, h⟩ with removed := true } h hpi (by simp)
      show s.remaining - 1 = liveCount (s.inputs.set i { s.inputs.get ⟨i, h⟩ with removed := true })
      rw [liveCount]
      rw [liveCount] at hcnt
      omega
    · intro c hc hcr
      rcases List.mem_or_eq_of_mem_set hc with hc' | rfl
      · exact hrm c hc' hcr
      · exact ⟨hcl, hpend⟩
    · intro ho
      rcases hoc ho with hstop | hall
      · exact Or.inl hstop
      · refine Or.inr ?_
        intro c hc
        rcases List.mem_or_eq_of_mem_set hc with hc' | rfl
        · exact hall c hc'
        · exact ⟨hcl, hpend⟩
  | taskSendDone v ht hroom =>
    exact ⟨hcnt, hrm, hoc⟩

theorem fanInInv_steps (s s' : FanInSys) (hr : Steps FanInStep s s')
    (hinv : fanInInv s) : fanInInv s' := by
  induction hr with
  | refl => exact hinv
  | tail hs hstep ih =>
    rcases hstep with henv | htask
    · exact fanInInv_env _ _ henv ih
    · exact fanInInv_task _ _ htask ih

theorem fanIn_outClosed_mono (s s' : FanInSys) (hstep : FanInStep s s')
    (hc : s.outClosed = true) : s'.outClosed = true := by
  rcases hstep with henv | htask
  · cases henv <;> simpa using hc
  · cases htask <;> simpa using hc

theorem histAll_set (outs : List OutCh) (F : Nat → List TVal) (j : Nat)
    (h : j < outs.length) (x : OutCh) (hx : x.hist = F j)
    (hall : ∀ jj (hh : jj < outs.length), jj ≠ j → (outs.get ⟨jj, hh⟩).hist = F jj) :
    ∀ jj (hh : jj < (outs.set j x).length), ((outs.set j x).get ⟨jj, hh⟩).hist = F jj := by
  intro jj hh
  have hh' : jj < outs.length := by simpa using hh
  by_cases hji : j = jj
  · subst hji
    have : (outs.set j x).get ⟨j, hh⟩ = x := by simp [List.getElem_set]
    rw [this, hx]
  · have : (outs.set j x).get ⟨jj, hh⟩ = outs.get ⟨jj, hh'⟩ := by
      simp [List.getElem_set, hji]
    rw [this]
    exact hall jj hh' (fun hc => hji hc.symm)

theorem closedAll_set (outs : List OutCh) (P : Nat → Bool) (j : Nat)
    (h : j < outs.length) (x : OutCh) (hx : x.closed = P j)
    (hall : ∀ jj (hh : jj < outs.length), jj ≠ j → (outs.get ⟨jj, hh⟩).closed = P jj) :
    ∀ jj (hh : jj < (outs.set j x).length), ((outs.set j x).get ⟨jj, hh⟩).closed = P jj := by
  intro jj hh
  have hh' : jj < outs.length := by simpa using hh
  by_cases hji : j = jj
  · subst hji
    have : (outs.set j x).get ⟨j, hh⟩ = x := by simp [List.getElem_set]
    rw [this, hx]
  · have : (outs.set j x).get ⟨jj, hh⟩ = outs.get ⟨jj, hh'⟩ := by
      simp [List.getElem_set, hji]
    rw [this]
    exact hall jj hh' (fun hc => hji hc.symm)

theorem fanOutInv_init (n outCap : Nat) (ch : Handle) (s : FanOutSys)
    (h : mkFanOut n outCap ch = Except.ok (some s)) : fanOutInv n s := by
  cases ch with
  | hNonChan => simp [mkFanOut] at h
  | hChan t p b =>
    by_cases hn : n = 0
    · subst hn
      simp [mkFanOut] at h
    · simp only [mkFanOut, if_neg hn, Except.ok.injEq, Option.some.injEq] at h
      subst h
      refine ⟨by simp, by omega, by simp, ?_, ?_, ?_, ?_, ?_⟩
      · intro v j hteq
        exact absurd hteq (by simp)
      · intro _ jj hh
        have : jj < n := by simpa using hh
        simp [List.getElem_replicate]
      · intro j hteq
        exact absurd hteq (by simp)
      · intro hteq
        exact absurd hteq (by simp)
      · intro _ jj hh
        simp [List.getElem_replicate]

theorem outsHist_advance (outs : List OutCh) (consumed pre : List TVal) (v : TVal)
    (j : Nat) (h : j < outs.length) (x : OutCh)
    (hcons : consumed = pre ++ [v])
    (hx : x.hist = (outs.get ⟨j, h⟩).hist ++ [v])
    (hh : outsHist outs consumed pre j) :
    outsHist (outs.set j x) consumed pre (j + 1) := by
  have h0 : (outs.get ⟨j, h⟩).hist = pre := by
    have h5 := hh j h
    rw [if_neg (lt_irrefl j)] at h5
    exact h5
  intro jj hbound
  have hb' : jj < outs.length := by simpa using hbound
  by_cases hji : j = jj
  · subst hji
    have hg : (outs.set j x).get ⟨j, hbound⟩ = x := by simp [List.getElem_set]
    rw [hg, hx, h0, if_pos (Nat.lt_succ_self j), hcons]
  · have hg : (outs.set j x).get ⟨jj, hbound⟩ = outs.get ⟨jj, hb'⟩ := by
      simp [List.getElem_set, hji]
    rw [hg, hh jj hb']
    exact if_congr (by omega) rfl rfl

theorem outsHist_finish (outs : List OutCh) (consumed pre : List TVal) (v : TVal)
    (j : Nat) (h : j < outs.length) (x : OutCh)
    (hcons : consumed = pre ++ [v])
    (hx : x.hist = (outs.get ⟨j, h⟩).hist ++ [v])
    (hh : outsHist outs consumed pre j)
    (hj1 : j + 1 = outs.length) :
    outsHist (outs.set j x) consumed consumed 0 := by
  have h0 : (outs.get ⟨j, h⟩).hist = pre := by
    have h5 := hh j h
    rw [if_neg (lt_irrefl j)] at h5
    exact h5
  intro jj hbound
  have hb' : jj < outs.length := by simpa using hbound
  rw [ite_self]
  by_cases hji : j = jj
  · subst hji
    have hg : (outs.set j x).get ⟨j, hbound⟩ = x := by simp [List.getElem_set]
    rw [hg, hx, h0, hcons]
  · have hg : (outs.set j x).get ⟨jj, hbound⟩ = outs.get ⟨jj, hb'⟩ := by
      simp [List.getElem_set, hji]
    rw [hg]
    have h5 := hh jj hb'
    rw [if_pos (by omega)] at h5
    exact h5

theorem closedAll_advance (outs : List OutCh) (j : Nat) (h : j < outs.length) (x : OutCh)
    (hx : x.closed = true)
    (hall : ∀ jj (hh : jj < outs.length), (outs.get ⟨jj, hh⟩).closed = decide (jj < j)) :
    ∀ jj (hh : jj < (outs.set j x).length),
      ((outs.set j x).get ⟨jj, hh⟩).closed = decide (jj < j + 1) := by
  intro jj hbound
  have hb' : jj < outs.length := by simpa using hbound
  by_cases hji : j = jj
  · subst hji
    have hg : (outs.set j x).get ⟨j, hbound⟩ = x := by simp [List.getElem_set]
    rw [hg, hx]
    simp [Nat.lt_succ_self]
  · have hg : (outs.set j x).get ⟨jj, hbound⟩ = outs.get ⟨jj, hb'⟩ := by
      simp [List.getElem_set, hji]
    rw [hg, hall jj hb']
    simp only [decide_eq_decide]
    omega

theorem closedAll_finish (outs : List OutCh) (j : Nat) (h : j < outs.length) (x : OutCh)
    (hx : x.closed = true)
    (hall : ∀ jj (hh : jj < outs.length), (outs.get ⟨jj, hh⟩).closed = decide (jj < j))
    (hj1 : j + 1 = outs.length) :
    ∀ jj (hh : jj < (outs.set j x).length), ((outs.set j x).get ⟨jj, hh⟩).closed = true := by
  intro jj hbound
  have hb' : jj < outs.length := by simpa using hbound
  by_cases hji : j = jj
  · subst hji
    have hg : (outs.set j x).get ⟨j, hbound⟩ = x := by simp [List.getElem_set]
    rw [hg, hx]
  · have hg : (outs.set j x).get ⟨jj, hbound⟩ = outs.get ⟨jj, hb'⟩ := by
      simp [List.getElem_set, hji]
    rw [hg, hall jj hb']
    simp only [decide_eq_true_eq]
    omega

theorem outsHist_all (outs : List OutCh) (consumed : List TVal)
    (hh : outsHist outs consumed consumed 0) :
    ∀ jj (h : jj < outs.length), (outs.get ⟨jj, h⟩).hist = consumed := by
  intro jj h
  have h5 := hh jj h
  rw [ite_self] at h5
  exact h5

theorem outsHist_of_all (outs : List OutCh) (consumed : List TVal)
    (hh : ∀ jj (h : jj < outs.length), (outs.get ⟨jj, h⟩).hist = consumed) :
    outsHist outs consumed consumed 0 := by
  intro jj h
  rw [ite_self]
  exact hh jj h

theorem fanOutInv_env (n : Nat) (s s' : FanOutSys) (hstep : FanOutEnv s s')
    (hinv : fanOutInv n s) : fanOutInv n s' := by
  obtain ⟨hlen, hpos, hsplit, hbr, hrest, hcg, hdn, hnc⟩ := hinv
  cases hstep with
  | envSendIn v hopen =>
    refine ⟨hlen, hpos, ?_, hbr, hrest, ?_, ?_, hnc⟩
    · show s.inHist ++ [v] = s.consumed ++ (s.inPending ++ [v])
      rw [hsplit, List.append_assoc]
    · intro j hteq
      obtain ⟨_, h2, _, _⟩ := hcg j hteq
      rw [hopen] at h2
      exact absurd h2 (by decide)
    · intro hteq
      obtain ⟨h2, _, _⟩ := hdn hteq
      rw [hopen] at h2
      exact absurd h2 (by decide)
  | envCloseIn hopen =>
    refine ⟨hlen, hpos, hsplit, hbr, hrest, ?_, ?_, hnc⟩
    · intro j hteq
      obtain ⟨h1, _, h3, h4⟩ := hcg j hteq
      exact ⟨h1, rfl, h3, h4⟩
    · intro hteq
      obtain ⟨_, h3, h4⟩ := hdn hteq
      exact ⟨rfl, h3, h4⟩
  | envRecvOut j v rest h hbuf =>
    refine ⟨by simpa using hlen, hpos, hsplit, ?_, ?_, ?_, ?_, ?_⟩
    · intro v0 j0 hteq
      obtain ⟨h1, pre, hcons, hh⟩ := hbr v0 j0 hteq
      exact ⟨by simpa using h1, pre, hcons,
        histAll_set s.outs _ j h _ (hh j h) (fun jj hh2 _ => hh jj hh2)⟩
    · intro hx
      have hh := hrest hx
      exact histAll_set s.outs _ j h _ (hh j h) (fun jj hh2 _ => hh jj hh2)
    · intro j0 hteq
      obtain ⟨h1, h2, h3, h4⟩ := hcg j0 hteq
      exact ⟨by simpa using h1, h2, h3,
        closedAll_set s.outs _ j h _ (h4 j h) (fun jj hh2 _ => h4 jj hh2)⟩
    · intro hteq
      obtain ⟨h2, h3, h4⟩ := hdn hteq
      exact ⟨h2, h3, closedAll_set s.outs _ j h _ (h4 j h) (fun jj hh2 _ => h4 jj hh2)⟩
    · intro hx
      have h4 := hnc hx
      exact closedAll_set s.outs _ j h _ (h4 j h) (fun jj hh2 _ => h4 jj hh2)
  | envRendezvousOut v j h ht hcap hbuf =>
    obtain ⟨hjlt, pre, hcons, hh⟩ := hbr v j ht
    have hncall := hnc (Or.inr ⟨v, j, ht⟩)
    by_cases hj1 : j + 1 = s.outs.length
    · refine ⟨by simpa using hlen, hpos, hsplit, ?_, ?_, ?_, ?_, ?_⟩
      · intro v0 j0 hteq
        rw [if_pos hj1] at hteq
        simp at hteq
      · intro _
        exact outsHist_finish s.outs s.consumed pre v j h _ hcons rfl hh hj1
      · intro j0 hteq
        rw [if_pos hj1] at hteq
        simp at hteq
      · intro hteq
        rw [if_pos hj1] at hteq
        simp at hteq
      · intro _
        exact closedAll_set s.outs (fun _ => false) j h _ (hncall j h)
          (fun jj hh2 _ => hncall jj hh2)
    · refine ⟨by simpa using hlen, hpos, hsplit, ?_, ?_, ?_, ?_, ?_⟩
      · intro v0 j0 hteq
        rw [if_neg hj1] at hteq
        simp only [FOTask.broadcasting.injEq] at hteq
        obtain ⟨rfl, rfl⟩ := hteq
        refine ⟨by simp only [List.length_set]; omega, pre, hcons, ?_⟩
        exact outsHist_advance s.outs s.consumed pre v j h _ hcons rfl hh
      · intro hx
        rcases hx with h1 | h2 | h3
        · rw [if_neg hj1] at h1; simp at h1
        · obtain ⟨j0, h2⟩ := h2; rw [if_neg hj1] at h2; simp at h2
        · rw [if_neg hj1] at h3; simp at h3
      · intro j0 hteq
        rw [if_neg hj1] at hteq
        simp at hteq
      · intro hteq
        rw [if_neg hj1] at hteq
        simp at hteq
      · intro _
        exact closedAll_set s.outs (fun _ => false) j h _ (hncall j h)
          (fun jj hh2 _ => hncall jj hh2)

theorem fanOutInv_task (n : Nat) (s s' : FanOutSys) (hstep : FanOutTask s s')
    (hinv : fanOutInv n s) : fanOutInv n s' := by
  obtain ⟨hlen, hpos, hsplit, hbr, hrest, hcg, hdn, hnc⟩ := hinv
  cases hstep with
  | foRecv v rest ht hpend =>
    have hnb := hrest (Or.inl ht)
    have hnc0 := hnc (Or.inl ht)
    refine ⟨hlen, hpos, ?_, ?_, ?_, ?_, ?_, ?_⟩
    · show s.inHist = (s.consumed ++ [v]) ++ rest
      rw [hsplit, hpend]
      simp
    · intro v0 j0 hteq
      simp only [FOTask.broadcasting.injEq] at hteq
      obtain ⟨rfl, rfl⟩ := hteq
      refine ⟨by rw [hlen]; exact hpos, s.consumed, rfl, ?_⟩
      intro jj hh
      rw [if_neg (Nat.not_lt_zero jj)]
      exact outsHist_all s.outs s.consumed hnb jj hh
    · intro hx
      rcases hx with h1 | h2 | h3
      · exact absurd h1 (by simp)
      · obtain ⟨j0, h2⟩ := h2
        exact absurd h2 (by simp)
      · exact absurd h3 (by simp)
    · intro j0 hteq
      exact absurd hteq (by simp)
    · intro hteq
      exact absurd hteq (by simp)
    · intro _
      exact hnc0
  | foRecvClosed ht hpend hcl =>
    have hnb := hrest (Or.inl ht)
    have hnc0 := hnc (Or.inl ht)
    refine ⟨hlen, hpos, hsplit, ?_, ?_, ?_, ?_, ?_⟩
    · intro v0 j0 hteq
      exact absurd hteq (by simp)
    · intro _
      exact hnb
    · intro j0 hteq
      have hj0 : 0 = j0 := by simpa using hteq
      subst hj0
      refine ⟨by rw [hlen]; exact hpos, hcl, hpend, ?_⟩
      intro jj hh
      rw [hnc0 jj hh]
      simp
    · intro hteq
      exact absurd hteq (by simp)
    · intro hx
      rcases hx with h1 | h2
      · exact absurd h1 (by simp)
      · obtain ⟨v0, j0, h2⟩ := h2
        exact absurd h2 (by simp)
  | foSendDone v j h ht hroom =>
    obtain ⟨hjlt, pre, hcons, hh⟩ := hbr v j ht
    have hncall := hnc (Or.inr ⟨v, j, ht⟩)
    by_cases hj1 : j + 1 = s.outs.length
    · refine ⟨by simpa using hlen, hpos, hsplit, ?_, ?_, ?_, ?_, ?_⟩
      · intro v0 j0 hteq
        rw [if_pos hj1] at hteq
        simp at hteq
      · intro _
        exact outsHist_finish s.outs s.consumed pre v j h _ hcons rfl hh hj1
      · intro j0 hteq
        rw [if_pos hj1] at hteq
        simp at hteq
      · intro hteq
        rw [if_pos hj1] at hteq
        simp at hteq
      · intro _
        exact closedAll_set s.outs (fun _ => false) j h _ (hncall j h)
          (fun jj hh2 _ => hncall jj hh2)
    · refine ⟨by simpa using hlen, hpos, hsplit, ?_, ?_, ?_, ?_, ?_⟩
      · intro v0 j0 hteq
        rw [if_neg hj1] at hteq
        simp only [FOTask.broadcasting.injEq] at hteq
        obtain ⟨rfl, rfl⟩ := hteq
        refine ⟨by simp only [List.length_set]; omega, pre, hcons, ?_⟩
        exact outsHist_advance s.outs s.consumed pre v j h _ hcons rfl hh
      · intro hx
        rcases hx with h1 | h2 | h3
        · rw [if_neg hj1] at h1; simp at h1
        · obtain ⟨j0, h2⟩ := h2; rw [if_neg hj1] at h2; simp at h2
        · rw [if_neg hj1] at h3; simp at h3
      · intro j0 hteq
        rw [if_neg hj1] at hteq
        simp at hteq
      · intro hteq
        rw [if_neg hj1] at hteq
        simp at hteq
      · intro _
        exact closedAll_set s.outs (fun _ => false) j h _ (hncall j h)
          (fun jj hh2 _ => hncall jj hh2)
  | foCloseOut j h ht =>
    obtain ⟨hjlt, hic, hip, hclo⟩ := hcg j ht
    have hnb := hrest (Or.inr (Or.inl ⟨j, ht⟩))
    have hxh : (s.outs.get ⟨j, h⟩).hist = s.consumed := outsHist_all s.outs s.consumed hnb j h
    by_cases hj1 : j + 1 = s.outs.length
    · refine ⟨by simpa using hlen, hpos, hsplit, ?_, ?_, ?_, ?_, ?_⟩
      · intro v0 j0 hteq
        rw [if_pos hj1] at hteq
        simp at hteq
      · intro _
        refine outsHist_of_all _ _ ?_
        exact histAll_set s.outs (fun _ => s.consumed) j h _ hxh
          (fun jj hh2 _ => outsHist_all s.outs s.consumed hnb jj hh2)
      · intro j0 hteq
        rw [if_pos hj1] at hteq
        simp at hteq
      · intro _
        exact ⟨hic, hip, closedAll_finish s.outs j h _ rfl hclo hj1⟩
      · intro hx
        rcases hx with h1 | h2
        · rw [if_pos hj1] at h1; simp at h1
        · obtain ⟨v0, j0, h2⟩ := h2; rw [if_pos hj1] at h2; simp at h2
    · refine ⟨by simpa using hlen, hpos, hsplit, ?_, ?_, ?_, ?_, ?_⟩
      · intro v0 j0 hteq
        rw [if_neg hj1] at hteq
        simp at hteq
      · intro _
        refine outsHist_of_all _ _ ?_
        exact histAll_set s.outs (fun _ => s.consumed) j h _ hxh
          (fun jj hh2 _ => outsHist_all s.outs s.consumed hnb jj hh2)
      · intro j0 hteq
        rw [if_neg hj1] at hteq
        have hj0 : j + 1 = j0 := by simpa using hteq
        subst hj0
        refine ⟨by simp only [List.length_set]; omega, hic, hip, ?_⟩
        exact closedAll_advance s.outs j h _ rfl hclo
      · intro hteq
        rw [if_neg hj1] at hteq
        simp at hteq
      · intro hx
        rcases hx with h1 | h2
        · rw [if_neg hj1] at h1; simp at h1
        · obtain ⟨v0, j0, h2⟩ := h2; rw [if_neg hj1] at h2; simp at h2

theorem fanOutInv_steps (n : Nat) (s s' : FanOutSys) (hr : Steps FanOutStep s s')
    (hinv : fanOutInv n s) : fanOutInv n s' := by
  induction hr with
  | refl => exact hinv
  | tail hs hstep ih =>
    rcases hstep with henv | htask
    · exact fanOutInv_env _ _ _ henv ih
    · exact fanOutInv_task _ _ _ htask ih

theorem closed_mono_set (outs : List OutCh) (j0 : Nat) (h : j0 < outs.length) (x : OutCh)
    (hx : x.closed = (outs.get ⟨j0, h⟩).closed ∨ x.closed = true)
    (j : Nat) (hj : j < outs.length) (hj' : j < (outs.set j0 x).length)
    (hc : (outs.get ⟨j, hj⟩).closed = true) :
    ((outs.set j0 x).get ⟨j, hj'⟩).closed = true := by
  by_cases hjj : j0 = j
  · subst hjj
    have hg : (outs.set j0 x).get ⟨j0, hj'⟩ = x := by simp [List.getElem_set]
    rw [hg]
    rcases hx with hx | hx
    · rw [hx]
      exact hc
    · exact hx
  · have hg : (outs.set j0 x).get ⟨j, hj'⟩ = outs.get ⟨j, hj⟩ := by
      simp [List.getElem_set, hjj]
    rw [hg]
    exact hc

theorem fanOut_closed_mono (s s' : FanOutSys) (hstep : FanOutStep s s') (j : Nat)
    (hj : j < s.outs.length) (hj' : j < s'.outs.length)
    (hc : (s.outs.get ⟨j, hj⟩).closed = true) : (s'.outs.get ⟨j, hj'⟩).closed = true := by
  rcases hstep with henv | htask
  · cases henv with
    | envSendIn v hopen => exact hc
    | envCloseIn hopen => exact hc
    | envRecvOut j0 v rest h hbuf =>
      exact closed_mono_set s.outs j0 h _ (by exact Or.inl rfl) j hj hj' hc
    | envRendezvousOut v j0 h ht hcap hbuf =>
      exact closed_mono_set s.outs j0 h _ (by exact Or.inl rfl) j hj hj' hc
  · cases htask with
    | foRecv v rest ht hpend => exact hc
    | foRecvClosed ht hpend hcl => exact hc
    | foSendDone v j0 h ht hroom =>
      exact closed_mono_set s.outs j0 h _ (by exact Or.inl rfl) j hj hj' hc
    | foCloseOut j0 h ht =>
      exact closed_mono_set s.outs j0 h _ (by exact Or.inr rfl) j hj hj' hc

theorem sendOrTr_shape (fuel : Nat) :
    ∀ (c : GoChan) (x : TVal) (f : GoChan → GoChan) (tr : List SendEv) (b : Bool)
      (c' : GoChan), sendOrTr fuel c x f = some (tr, b, c') →
      (∃ k, tr = List.replicate k SendEv.fallback ++
        [if b then SendEv.delivered else SendEv.observedClosed])
      ∧ (b = false → c'.closed = true)
      ∧ (c.closed = true → tr = [SendEv.observedClosed] ∧ b = false) := by
  induction fuel with
  | zero =>
    intro c x f tr b c' h
    simp [sendOrTr] at h
  | succ n ih =>
    intro c x f tr b c' h
    by_cases hcl : c.closed = true
    · have hra : trySendRaw c x = (Status.Closed, c) := by simp [trySendRaw, hcl]
      rw [sendOrTr, hra] at h
      simp only [Option.some.injEq, Prod.mk.injEq] at h
      obtain ⟨htr, hb, hc'⟩ := h
      subst htr
      subst hb
      subst hc'
      exact ⟨⟨0, by simp⟩, fun _ => hcl, fun _ => ⟨rfl, rfl⟩⟩
    · have hcl' : c.closed = false := by
        cases hc : c.closed
        · rfl
        · exact absurd hc hcl
      by_cases hroom : c.buf.length < c.cap
      · have hra : trySendRaw c x = (Status.Ok, { c with buf := c.buf ++ [x] }) := by
          simp [trySendRaw, hcl', hroom]
        rw [sendOrTr, hra] at h
        simp only [Option.some.injEq, Prod.mk.injEq] at h
        obtain ⟨htr, hb, hc'⟩ := h
        subst htr
        subst hb
        exact ⟨⟨0, by simp⟩, fun hf => absurd hf (by simp), fun hc => absurd hc hcl⟩
      · by_cases hrr : c.recvReady = true
        · have hra : trySendRaw c x = (Status.Ok, { c with recvReady := false }) := by
            simp [trySendRaw, hcl', hroom, hrr]
          rw [sendOrTr, hra] at h
          simp only [Option.some.injEq, Prod.mk.injEq] at h
          obtain ⟨htr, hb, hc'⟩ := h
          subst htr
          subst hb
          exact ⟨⟨0, by simp⟩, fun hf => absurd hf (by simp), fun hc => absurd hc hcl⟩
        · have hrr' : c.recvReady = false := by
            cases hc : c.recvReady
            · rfl
            · exact absurd hc hrr
          have hra : trySendRaw c x = (Status.Blocked, c) := by
            simp [trySendRaw, hcl', hroom, hrr']
          rw [sendOrTr, hra] at h
          cases heq : sendOrTr n (f c) x f with
          | none =>
            rw [heq] at h
            simp at h
          | some res =>
            obtain ⟨tr0, b0, c0'⟩ := res
            rw [heq] at h
            simp only [Option.some.injEq, Prod.mk.injEq] at h
            obtain ⟨htr, hb, hc'⟩ := h
            subst htr
            subst hb
            subst hc'
            obtain ⟨⟨k, htr0⟩, hbc, _⟩ := ih (f c) x f tr0 b0 c0' heq
            refine ⟨⟨k + 1, ?_⟩, hbc, fun hc => absurd hc hcl⟩
            rw [htr0, List.replicate_succ]
            rfl

theorem fanInK0_steps (s : FanInSys) (hr : Steps FanInStep fanInK0 s) :
    s.outClosed = true ∧ s.outBuf = [] ∧ s.task = FanTask.noTask ∧ s.inputs = [] := by
  induction hr with
  | refl => exact ⟨rfl, rfl, rfl, rfl⟩
  | tail hs hstep ih =>
    obtain ⟨ih1, ih2, ih3, ih4⟩ := ih
    rcases hstep with henv | htask
    · cases henv with
      | envSend i v h hopen hty =>
        rw [ih4] at h
        exact absurd h (by simp)
      | envCloseInput i h hopen =>
        rw [ih4] at h
        exact absurd h (by simp)
      | envCloseStop h =>
        exact ⟨ih1, ih2, ih3, ih4⟩
      | envRecvOut v rest h =>
        rw [ih2] at h
        exact absurd h (by simp)
      | envRendezvousOut v ht hcap hbuf =>
        rw [ih3] at ht
        exact absurd ht (by simp)
    · cases htask with
      | taskStopFire ht hstop =>
        rw [ih3] at ht
        exact absurd ht (by simp)
      | taskRecv i v rest h ht hrem hpend =>
        rw [ih3] at ht
        exact absurd ht (by simp)
      | taskLastClosed i h ht hrem hcl hpend hlast =>
        rw [ih3] at ht
        exact absurd ht (by simp)
      | taskTomb i h ht hrem hcl hpend hnotlast =>
        rw [ih3] at ht
        exact absurd ht (by simp)
      | taskSendDone v ht hroom =>
        rw [ih3] at ht
        exact absurd ht (by simp)

theorem oldDone_no_close (s s' : OldFanInSys) (h1 : s.task = OldTask.odone)
    (h2 : s.outClosed = false) (hr : Steps OldFanInStep s s') :
    s'.task = OldTask.odone ∧ s'.outClosed = false := by
  induction hr with
  | refl => exact ⟨h1, h2⟩
  | tail hs hstep ih =>
    obtain ⟨ih1, ih2⟩ := ih
    rcases hstep with henv | htask
    · cases henv with
      | envSend i v h hopen hty => exact ⟨ih1, ih2⟩
      | envCloseInput i h hopen => exact ⟨ih1, ih2⟩
      | envCloseStop h => exact ⟨ih1, ih2⟩
      | envRecvOut v rest h => exact ⟨ih1, ih2⟩
      | envRendezvousOut v ht hcap hbuf =>
        rw [ih1] at ht
        exact absurd ht (by simp)
    · cases htask with
      | oldCheckVal ht hv =>
        rw [ih1] at ht
        exact absurd ht (by simp)
      | oldCheckClosed ht hv hstop =>
        rw [ih1] at ht
        exact absurd ht (by simp)
      | oldCheckPass ht hv hstop =>
        rw [ih1] at ht
        exact absurd ht (by simp)
      | oldSelRecv i v rest h ht hrem hpend =>
        rw [ih1] at ht
        exact absurd ht (by simp)
      | oldSelLastClosed i h ht hrem hcl hpend hlast =>
        rw [ih1] at ht
        exact absurd ht (by simp)
      | oldSelTomb i h ht hrem hcl hpend hnotlast =>
        rw [ih1] at ht
        exact absurd ht (by simp)
      | oldSendDone v ht hroom =>
        rw [ih1] at ht
        exact absurd ht (by simp)

theorem c1Stuck_no_task_step (s' : FanInSys) (h : FanInTask c1Stuck s') : False := by
  cases h with
  | taskStopFire ht hstop => exact absurd ht (by decide)
  | taskRecv i v rest h ht hrem hpend => exact absurd ht (by decide)
  | taskLastClosed i h ht hrem hcl hpend hlast => exact absurd ht (by decide)
  | taskTomb i h ht hrem hcl hpend hnotlast => exact absurd ht (by decide)
  | taskSendDone v ht hroom => exact absurd hroom (by decide)

theorem applyOp_closed (c : GoChan) (op : ChanOp) (h : c.closed = true) :
    (applyOp c op).closed = true := by
  cases op with
  | opSend x =>
    by_cases hass : assignable (tyOf x) c.elemTy = true
    · simp [applyOp, trySend, hass, trySendRaw, h]
    · simp [applyOp, trySend, hass, h]
  | opRecv =>
    cases hb : c.buf with
    | nil => simp [applyOp, tryRecv, hb, h]
    | cons v rest => simp [applyOp, tryRecv, hb, h]
  | opClose => simp [applyOp, tryClose]

theorem execOps_closed (ops : List ChanOp) :
    ∀ c : GoChan, c.closed = true → (execOps ops c).closed = true := by
  induction ops with
  | nil => intro c h; exact h
  | cons op rest ih =>
    intro c h
    exact ih (applyOp c op) (applyOp_closed c op h)

/-- Claim C5 (counterexample): the claim as stated fails.  A capacity-1
string channel receives one item and is closed; TrySend on it observes
Closed, yet the very next TryRecv observes Ok, delivering the buffered
item.  The channel state is reachable by the operations send then
close. -/
theorem c5_probe_counterexample :
    c5Chan = execOps [ChanOp.opSend (TVal.vStr "A"), ChanOp.opClose] (mkChan Ty.tStr 1)
    ∧ trySend c5Chan (TVal.vStr "B") = some (Status.Closed, c5Chan)
    ∧ (tryRecv c5Chan).1.2 = Status.Ok
    ∧ (tryRecv c5Chan).1.1 = some (TVal.vStr "A")
    ∧ Status.Ok ≠ Status.Closed :=
  ⟨rfl, rfl, rfl, rfl, by decide⟩

/-- Claim C5 (amended): once any probe observes Closed, the closed flag
of the channel is permanently set and never reverts under any further
operations; from then on TrySend and IsClosed always observe Closed, and
TryRecv observes Closed as soon as the buffer is drained, while buffered
items laid down before the close may still be delivered with Ok first.
Conversely each probe observes Closed only when the flag is set (and,
for TryRecv, the buffer is empty). -/
theorem closed_monotonic :
    (∀ c : GoChan, c.closed = true → ∀ ops, (execOps ops c).closed = true)
    ∧ (∀ (c : GoChan) (x : TVal) (st : Status) (c' : GoChan),
        trySend c x = some (st, c') → st = Status.Closed → c.closed = true)
    ∧ (∀ c : GoChan, (tryRecv c).1.2 = Status.Closed → c.closed = true ∧ c.buf = [])
    ∧ (∀ c : GoChan, isClosed c = true → c.closed = true)
    ∧ (∀ (c : GoChan) (x : TVal), c.closed = true → assignable (tyOf x) c.elemTy = true →
        trySend c x = some (Status.Closed, c))
    ∧ (∀ c : GoChan, c.closed = true → isClosed c = true)
    ∧ (∀ c : GoChan, c.closed = true → c.buf = [] → (tryRecv c).1.2 = Status.Closed) := by
  refine ⟨fun c h ops => execOps_closed ops c h, ?_, ?_, fun c h => h, ?_, fun c h => h, ?_⟩
  · intro c x st c' h hst
    subst hst
    by_cases hcl : c.closed = true
    · exact hcl
    · exfalso
      have hcl' : c.closed = false := by
        cases hx : c.closed
        · rfl
        · exact absurd hx hcl
      simp only [trySend] at h
      by_cases hass : assignable (tyOf x) c.elemTy = true
      · rw [if_pos hass] at h
        simp only [Option.some.injEq] at h
        simp only [trySendRaw, hcl'] at h
        split_ifs at h <;> simp_all
      · rw [if_neg hass] at h
        exact Option.noConfusion h
  · intro c h
    cases hb : c.buf with
    | nil =>
      by_cases hcl : c.closed = true
      · exact ⟨hcl, rfl⟩
      · exfalso
        have hcl' : c.closed = false := by
          cases hx : c.closed
          · rfl
          · exact absurd hx hcl
        simp [tryRecv, hb, hcl'] at h
    | cons v rest =>
      exfalso
      simp [tryRecv, hb] at h
  · intro c x hcl hass
    simp [trySend, hass, trySendRaw, hcl]
  · intro c hcl hb
    simp [tryRecv, hb, hcl]

/-- Claim C5 witness: the amended monotonicity evaluated on a concrete
closed channel. -/
theorem closed_monotonic_witness :
    (execOps [ChanOp.opRecv, ChanOp.opSend (TVal.vNat 1)] c5Closed).closed = true
    ∧ c5Closed.closed = true
    ∧ (c5Closed.closed = true ∧ c5Closed.buf = [])
    ∧ trySend c5Closed (TVal.vNat 0) = some (Status.Closed, c5Closed)
    ∧ isClosed c5Closed = true
    ∧ (tryRecv c5Closed).1.2 = Status.Closed :=
  ⟨closed_monotonic.1 c5Closed rfl [ChanOp.opRecv, ChanOp.opSend (TVal.vNat 1)],
   closed_monotonic.2.1 c5Closed (TVal.vNat 0) Status.Closed c5Closed rfl rfl,
   closed_monotonic.2.2.1 c5Closed rfl,
   closed_monotonic.2.2.2.2.1 c5Closed (TVal.vNat 0) rfl rfl,
   closed_monotonic.2.2.2.2.2.1 c5Closed rfl,
   closed_monotonic.2.2.2.2.2.2 c5Closed rfl rfl⟩

/-- Claim C6: for a value whose dynamic type is assignable to the
element type of the channel, TrySend is total (no panic, never suspends,
it is a function) and returns Closed exactly when the channel is closed,
Ok exactly when it is open with buffer room or a parked receiver, and
Blocked exactly when it is open, without room and without a ready
receiver. -/
theorem trySend_spec (c : GoChan) (x : TVal)
    (hass : assignable (tyOf x) c.elemTy = true) :
    (∃ st c', trySend c x = some (st, c'))
    ∧ (∀ st c', trySend c x = some (st, c') →
        ((st = Status.Closed ↔ c.closed = true)
        ∧ (st = Status.Ok ↔ c.closed = false ∧ (c.buf.length < c.cap ∨ c.recvReady = true))
        ∧ (st = Status.Blocked ↔
            c.closed = false ∧ ¬ c.buf.length < c.cap ∧ c.recvReady = false))) := by
  constructor
  · exact ⟨(trySendRaw c x).1, (trySendRaw c x).2, by simp [trySend, hass]⟩
  · intro st c' h
    simp only [trySend, if_pos hass, Option.some.injEq] at h
    by_cases hcl : c.closed = true
    · have hr : trySendRaw c x = (Status.Closed, c) := by simp [trySendRaw, hcl]
      rw [hr, Prod.mk.injEq] at h
      obtain ⟨h1, _⟩ := h
      subst h1
      refine ⟨?_, ?_, ?_⟩ <;> simp [hcl]
    · have hcl' : c.closed = false := by
        cases hx : c.closed
        · rfl
        · exact absurd hx hcl
      by_cases hroom : c.buf.length < c.cap
      · have hr : trySendRaw c x = (Status.Ok, { c with buf := c.buf ++ [x] }) := by
          simp [trySendRaw, hcl', hroom]
        rw [hr, Prod.mk.injEq] at h
        obtain ⟨h1, _⟩ := h
        subst h1
        refine ⟨?_, ?_, ?_⟩ <;> simp [hcl', hroom]
      · by_cases hrr : c.recvReady = true
        · have hr : trySendRaw c x = (Status.Ok, { c with recvReady := false }) := by
            simp [trySendRaw, hcl', hroom, hrr]
          rw [hr, Prod.mk.injEq] at h
          obtain ⟨h1, _⟩ := h
          subst h1
          refine ⟨?_, ?_, ?_⟩ <;> simp [hcl', hroom, hrr]
        · have hrr' : c.recvReady = false := by
            cases hx : c.recvReady
            · rfl
            · exact absurd hx hrr
          have hr : trySendRaw c x = (Status.Blocked, c) := by
            simp [trySendRaw, hcl', hroom, hrr']
          rw [hr, Prod.mk.injEq] at h
          obtain ⟨h1, _⟩ := h
          subst h1
          refine ⟨?_, ?_, ?_⟩ <;> simp [hcl', hroom, hrr']

/-- Claim C6 witness: TrySend evaluated on a concrete open buffered
channel with room. -/
theorem trySend_spec_witness :
    (∃ st c', trySend (mkChan Ty.tNat 1) (TVal.vNat 3) = some (st, c'))
    ∧ (∀ st c', trySend (mkChan Ty.tNat 1) (TVal.vNat 3) = some (st, c') →
        ((st = Status.Closed ↔ (mkChan Ty.tNat 1).closed = true)
        ∧ (st = Status.Ok ↔ (mkChan Ty.tNat 1).closed = false ∧
            ((mkChan Ty.tNat 1).buf.length < (mkChan Ty.tNat 1).cap ∨
              (mkChan Ty.tNat 1).recvReady = true))
        ∧ (st = Status.Blocked ↔
            (mkChan Ty.tNat 1).closed = false ∧
              ¬ (mkChan Ty.tNat 1).buf.length < (mkChan Ty.tNat 1).cap ∧
                (mkChan Ty.tNat 1).recvReady = false))) :=
  trySend_spec (mkChan Ty.tNat 1) (TVal.vNat 3) rfl

/-- Claim C7: TryClose reports true exactly when this call transitioned
the channel from open to closed, reports false (a boolean no-op result,
no panic, TryClose is total) exactly when the channel was already
closed, and in either case leaves the channel closed. -/
theorem tryClose_spec (c : GoChan) :
    ((tryClose c).1 = true ↔ c.closed = false)
    ∧ ((tryClose c).1 = false ↔ c.closed = true)
    ∧ (tryClose c).2.closed = true := by
  refine ⟨?_, ?_, rfl⟩ <;> cases hx : c.closed <;> simp [tryClose, hx]

/-- Claim C7 witness: TryClose evaluated on a concrete already-closed
channel. -/
theorem tryClose_spec_witness :
    ((tryClose c5Closed).1 = true ↔ c5Closed.closed = false)
    ∧ ((tryClose c5Closed).1 = false ↔ c5Closed.closed = true)
    ∧ (tryClose c5Closed).2.closed = true :=
  tryClose_spec c5Closed

/-- Claim C8: every terminating SendOr run consists of some number of
fallback invocations followed by exactly one terminal event; the result
is true exactly when that event is the delivery and false exactly when
it is the observation that the channel is closed, which can only be the
last event, so the fallback is never invoked after the closed status is
observed; if the channel is closed at the time of the call, the run is
the single observation of the closed status, the fallback is never
invoked at all, and the result is false. -/
theorem SendOr_spec (fuel : Nat) (c : GoChan) (x : TVal) (f : GoChan → GoChan)
    (tr : List SendEv) (b : Bool) (c' : GoChan)
    (h : SendOr fuel c x f = Except.ok (some (tr, b, c'))) :
    (∃ k, tr = List.replicate k SendEv.fallback ++
      [if b then SendEv.delivered else SendEv.observedClosed])
    ∧ (b = false → c'.closed = true)
    ∧ (b = true → SendEv.delivered ∈ tr ∧ SendEv.observedClosed ∉ tr)
    ∧ (b = false → SendEv.delivered ∉ tr)
    ∧ (c.closed = true → tr = [SendEv.observedClosed] ∧ b = false) := by
  have hs : sendOrTr fuel c x f = some (tr, b, c') := by
    by_cases hass : assignable (tyOf x) c.elemTy = true
    · simpa [SendOr, hass] using h
    · simp [SendOr, hass] at h
  obtain ⟨⟨k, htr⟩, hbc, hcl⟩ := sendOrTr_shape fuel c x f tr b c' hs
  refine ⟨⟨k, htr⟩, hbc, ?_, ?_, hcl⟩
  · intro hb
    subst hb
    rw [htr]
    constructor
    · simp
    · simp [List.mem_append, List.mem_replicate]
  · intro hb
    subst hb
    rw [htr]
    simp [List.mem_append, List.mem_replicate]

/-- Claim C8 witness: SendOr on a concrete channel that is closed at the
time of the call returns false with the single observed-closed event and
without invoking the fallback. -/
theorem SendOr_spec_witness :
    (∃ k, [SendEv.observedClosed] = List.replicate k SendEv.fallback ++
      [if false then SendEv.delivered else SendEv.observedClosed])
    ∧ (false = false → c5Closed.closed = true)
    ∧ (false = true → SendEv.delivered ∈ [SendEv.observedClosed] ∧
        SendEv.observedClosed ∉ [SendEv.observedClosed])
    ∧ (false = false → SendEv.delivered ∉ [SendEv.observedClosed])
    ∧ (c5Closed.closed = true → [SendEv.observedClosed] = [SendEv.observedClosed] ∧
        false = false) :=
  SendOr_spec 1 c5Closed (TVal.vNat 0) id [SendEv.observedClosed] false c5Closed rfl

/-- Claim C1 (counterexample): the claim as stated fails.  In the
session mkFanIn(0, chan nat with one item, chan nat), the merging task
takes the item and is blocked forwarding it to the unbuffered output;
the caller then closes the stop channel.  In the reached state the stop
channel is closed, the output is not closed, and the merging task has no
step it can take by itself at all (only a consumer arriving at the
output could unblock it), so it does not terminate within one wait cycle
regardless of input behavior. -/
theorem c1_blocked_forward_counterexample :
    mkFanIn 0 [Handle.hChan Ty.tNat [TVal.vNat 1] false, Handle.hChan Ty.tNat [] false]
      = Except.ok c1Init
    ∧ Steps FanInStep c1Init c1Stuck
    ∧ c1Stuck.stopClosed = true
    ∧ c1Stuck.outClosed = false
    ∧ c1Stuck.task = FanTask.sending (TVal.vNat 1)
    ∧ (∀ s', FanInTask c1Stuck s' → False)
    ∧ (∀ s', Steps FanInTask c1Stuck s' → s' = c1Stuck) := by
  refine ⟨rfl, ?_, rfl, rfl, rfl, c1Stuck_no_task_step, ?_⟩
  · exact Steps.tail
      (Steps.tail (Steps.refl c1Init)
        (Or.inr (FanInTask.taskRecv c1Init 0 (TVal.vNat 1) [] (by decide) rfl rfl rfl)))
      (Or.inl (FanInEnv.envCloseStop c1Mid rfl))
  · intro s' hr
    induction hr with
    | refl => rfl
    | tail hs hstep ih =>
      subst ih
      exact absurd hstep (c1Stuck_no_task_step _)

/-- Claim C1 (amended): once the caller closes the stop channel, the
merging task is never blocked at its multi-way wait point, because the
stop case of the select is permanently ready there; and the wait cycle
in which the select fires the stop case terminates the task and closes
the output, ignoring all remaining input state.  The original bound of
one wait cycle holds only at the wait point: a task blocked forwarding
an item to a full output whose consumer is gone is not released by the
stop channel (see the counterexample). -/
theorem fanIn_stop_case_terminates (s : FanInSys)
    (ht : s.task = FanTask.selecting) (hstop : s.stopClosed = true) :
    (∃ s', FanInTask s s')
    ∧ FanInTask s { s with task := FanTask.fdone, outClosed := true }
    ∧ ({ s with task := FanTask.fdone, outClosed := true }).outClosed = true
    ∧ ({ s with task := FanTask.fdone, outClosed := true }).task = FanTask.fdone :=
  ⟨⟨_, FanInTask.taskStopFire s ht hstop⟩, FanInTask.taskStopFire s ht hstop, rfl, rfl⟩

/-- Claim C1 witness: the amended statement evaluated on a concrete
session whose task is at the wait point with the stop channel closed. -/
theorem fanIn_stop_case_terminates_witness :
    (∃ s', FanInTask c1SelStop s')
    ∧ FanInTask c1SelStop { c1SelStop with task := FanTask.fdone, outClosed := true }
    ∧ ({ c1SelStop with task := FanTask.fdone, outClosed := true }).outClosed = true
    ∧ ({ c1SelStop with task := FanTask.fdone, outClosed := true }).task = FanTask.fdone :=
  fanIn_stop_case_terminates c1SelStop rfl rfl

/-- Claim C2: in every reachable state of every fan-in session of the
current revision, a closed output implies that the stop channel was
closed or that every input is closed and drained (so the output is never
closed while some still-live input could deliver an item), and every
step preserves output closure, so the open-to-closed transition happens
at most once along any execution; the only closing steps are the two
returns of the merging task, guarded exactly by the stop case firing or
the last live input reporting closed. -/
theorem fanIn_output_close_invariant (outCap : Nat) (chs : List Handle)
    (ini s : FanInSys) (hmk : mkFanIn outCap chs = Except.ok ini)
    (hr : Steps FanInStep ini s) :
    (s.outClosed = true →
      s.stopClosed = true ∨ ∀ c ∈ s.inputs, c.closed = true ∧ c.pending = [])
    ∧ (∀ s', FanInStep s s' → s.outClosed = true → s'.outClosed = true) := by
  have hinv := fanInInv_steps ini s hr (fanInInv_init outCap chs ini hmk)
  exact ⟨hinv.2.2, fun s' hst => fanIn_outClosed_mono s s' hst⟩

/-- Claim C2 witness: the invariant evaluated on the K = 0 session at
its initial state. -/
theorem fanIn_output_close_invariant_witness :
    (fanInK0.outClosed = true →
      fanInK0.stopClosed = true ∨ ∀ c ∈ fanInK0.inputs, c.closed = true ∧ c.pending = [])
    ∧ (∀ s', FanInStep fanInK0 s' → fanInK0.outClosed = true → s'.outClosed = true) :=
  fanIn_output_close_invariant 1 [] fanInK0 fanInK0 rfl (Steps.refl fanInK0)

/-- Claim C9: MakeFanIn with zero inputs returns an output channel that
is closed already at construction, starts no background task, and in
every reachable state of the session the output stays closed with an
empty buffer and no task, so no item is ever deliverable from it. -/
theorem mkFanIn_zero_spec (outCap : Nat) (ini s : FanInSys)
    (hmk : mkFanIn outCap [] = Except.ok ini) (hr : Steps FanInStep ini s) :
    ini.outClosed = true ∧ ini.task = FanTask.noTask
    ∧ s.outClosed = true ∧ s.outBuf = [] ∧ s.task = FanTask.noTask := by
  have hini : ini = fanInK0 := by
    simp only [mkFanIn, Except.ok.injEq] at hmk
    exact hmk.symm
  subst hini
  obtain ⟨h1, h2, h3, _⟩ := fanInK0_steps s hr
  exact ⟨rfl, rfl, h1, h2, h3⟩

/-- Claim C9 witness: the K = 0 session evaluated at its initial
state. -/
theorem mkFanIn_zero_spec_witness :
    fanInK0.outClosed = true ∧ fanInK0.task = FanTask.noTask
    ∧ fanInK0.outClosed = true ∧ fanInK0.outBuf = [] ∧ fanInK0.task = FanTask.noTask :=
  mkFanIn_zero_spec 7 fanInK0 fanInK0 rfl (Steps.refl fanInK0)

/-- Claim C3: in every reachable state of every fan-out session with at
least two outputs, the number of outputs is constant; every output has
received a prefix of the sequence of items the task consumed from the
input, which is itself a prefix of everything sent into the input, so
each output receives the items of the input in input order; whenever
the task is back at the receive (the only place an item can be taken
from the input), every output has already received every consumed item,
which is the per-item barrier; an output is closed only after the input
was observed closed; once the task has returned, every output is closed
and holds the full consumed sequence; and every step preserves closure
of each output, so each output is closed at most once. -/
theorem fanOut_barrier_order_close (n outCap : Nat) (ch : Handle)
    (ini s : FanOutSys) (hn : 2 ≤ n)
    (hmk : mkFanOut n outCap ch = Except.ok (some ini))
    (hr : Steps FanOutStep ini s) :
    s.outs.length = n
    ∧ (∀ j (hj : j < s.outs.length), ∃ t, s.consumed = (s.outs.get ⟨j, hj⟩).hist ++ t)
    ∧ (∃ t, s.inHist = s.consumed ++ t)
    ∧ (s.task = FOTask.receiving →
        ∀ j (hj : j < s.outs.length), (s.outs.get ⟨j, hj⟩).hist = s.consumed)
    ∧ (∀ j (hj : j < s.outs.length), (s.outs.get ⟨j, hj⟩).closed = true →
        s.inClosed = true)
    ∧ (s.task = FOTask.done → s.inClosed = true ∧
        ∀ j (hj : j < s.outs.length),
          (s.outs.get ⟨j, hj⟩).closed = true ∧ (s.outs.get ⟨j, hj⟩).hist = s.consumed)
    ∧ (∀ s', FanOutStep s s' → ∀ j (hj : j < s.outs.length) (hj' : j < s'.outs.length),
        (s.outs.get ⟨j, hj⟩).closed = true → (s'.outs.get ⟨j, hj'⟩).closed = true) := by
  have hinv := fanOutInv_steps n ini s hr (fanOutInv_init n outCap ch ini hmk)
  obtain ⟨hlen, hpos, hsplit, hbr, hrest, hcg, hdn, hnc⟩ := hinv
  refine ⟨hlen, ?_, ⟨s.inPending, hsplit⟩, ?_, ?_, ?_, ?_⟩
  · intro j hj
    cases hts : s.task with
    | receiving =>
      exact ⟨[], by rw [outsHist_all _ _ (hrest (Or.inl hts)) j hj, List.append_nil]⟩
    | broadcasting v j0 =>
      obtain ⟨hjlt, pre, hcons, hh⟩ := hbr v j0 hts
      have h5 := hh j hj
      by_cases hlt : j < j0
      · rw [if_pos hlt] at h5
        exact ⟨[], by rw [h5, List.append_nil]⟩
      · rw [if_neg hlt] at h5
        exact ⟨[v], by rw [h5]; exact hcons⟩
    | closing j0 =>
      exact ⟨[], by rw [outsHist_all _ _ (hrest (Or.inr (Or.inl ⟨j0, hts⟩))) j hj,
        List.append_nil]⟩
    | done =>
      exact ⟨[], by rw [outsHist_all _ _ (hrest (Or.inr (Or.inr hts))) j hj,
        List.append_nil]⟩
  · intro hts j hj
    exact outsHist_all _ _ (hrest (Or.inl hts)) j hj
  · intro j hj hc
    cases hts : s.task with
    | receiving =>
      have := hnc (Or.inl hts) j hj
      rw [this] at hc
      exact absurd hc (by decide)
    | broadcasting v j0 =>
      have := hnc (Or.inr ⟨v, j0, hts⟩) j hj
      rw [this] at hc
      exact absurd hc (by decide)
    | closing j0 =>
      exact (hcg j0 hts).2.1
    | done =>
      exact (hdn hts).1
  · intro hts
    refine ⟨(hdn hts).1, fun j hj => ⟨(hdn hts).2.2 j hj, ?_⟩⟩
    exact outsHist_all _ _ (hrest (Or.inr (Or.inr hts))) j hj
  · intro s' hst j hj hj' hc
    exact fanOut_closed_mono s s' hst j hj hj' hc

/-- Claim C3 witness: the fan-out invariant evaluated on a fresh session
with two outputs at its initial state. -/
theorem fanOut_barrier_order_close_witness :
    fanOut2Init.outs.length = 2
    ∧ (∀ j (hj : j < fanOut2Init.outs.length),
        ∃ t, fanOut2Init.consumed = (fanOut2Init.outs.get ⟨j, hj⟩).hist ++ t)
    ∧ (∃ t, fanOut2Init.inHist = fanOut2Init.consumed ++ t)
    ∧ (fanOut2Init.task = FOTask.receiving →
        ∀ j (hj : j < fanOut2Init.outs.length),
          (fanOut2Init.outs.get ⟨j, hj⟩).hist = fanOut2Init.consumed)
    ∧ (∀ j (hj : j < fanOut2Init.outs.length),
        (fanOut2Init.outs.get ⟨j, hj⟩).closed = true → fanOut2Init.inClosed = true)
    ∧ (fanOut2Init.task = FOTask.done → fanOut2Init.inClosed = true ∧
        ∀ j (hj : j < fanOut2Init.outs.length),
          (fanOut2Init.outs.get ⟨j, hj⟩).closed = true ∧
            (fanOut2Init.outs.get ⟨j, hj⟩).hist = fanOut2Init.consumed)
    ∧ (∀ s', FanOutStep fanOut2Init s' →
        ∀ j (hj : j < fanOut2Init.outs.length) (hj' : j < s'.outs.length),
          (fanOut2Init.outs.get ⟨j, hj⟩).closed = true →
            (s'.outs.get ⟨j, hj'⟩).closed = true) :=
  fanOut_barrier_order_close 2 1 (Handle.hChan Ty.tNat [] false) fanOut2Init fanOut2Init
    (by decide) rfl (Steps.refl fanOut2Init)

/-- Claim C4 (counterexample): the claim as stated fails at K = 1.  The
single-input fast path of MakeFanIn type-asserts its argument to chan
interface, so a single input channel whose element type is string is
rejected with a panic even though it is a channel. -/
theorem c4_single_input_counterexample :
    mkFanIn 1 [Handle.hChan Ty.tStr [] false]
      = Except.error "interface conversion: the input is not chan interface"
    ∧ (∀ s, mkFanIn 1 [Handle.hChan Ty.tStr [] false] ≠ Except.ok s)
    ∧ [Handle.hChan Ty.tStr [] false].length = 1
    ∧ isChanHandle (Handle.hChan Ty.tStr [] false) = true := by
  refine ⟨rfl, ?_, rfl, rfl⟩
  intro s h
  simp [mkFanIn] at h

/-- Claim C4 (amended): for every K of at least two, MakeFanIn accepts
any list of channel handles, of arbitrary and mixed element types,
without a contract-violation panic, and its merging task forwards each
available item to the output with no type condition; for K = 1 the fast
path accepts exactly a chan interface input (any other element type
panics at the type assertion). -/
theorem mkFanIn_accepts (outCap : Nat) :
    (∀ chs : List Handle, 2 ≤ chs.length → (∀ hh ∈ chs, isChanHandle hh = true) →
      ∃ s, mkFanIn outCap chs = Except.ok s ∧ s.task = FanTask.selecting ∧
        s.inputs.length = chs.length)
    ∧ (∀ p b, ∃ s, mkFanIn outCap [Handle.hChan Ty.tIface p b] = Except.ok s)
    ∧ (∀ (s : FanInSys) (i : Nat) (v : TVal) (rest : List TVal)
        (h : i < s.inputs.length), s.task = FanTask.selecting →
        (s.inputs.get ⟨i, h⟩).removed = false →
        (s.inputs.get ⟨i, h⟩).pending = v :: rest →
        s.outBuf.length < s.outCap →
        ∃ s', Steps FanInStep s s' ∧ s'.outBuf = s.outBuf ++ [v]) := by
  refine ⟨?_, ?_, ?_⟩
  · intro chs hlen hall
    cases chs with
    | nil => exact absurd hlen (by decide)
    | cons a rest =>
      cases rest with
      | nil => exact absurd hlen (by simp)
      | cons a2 rest2 =>
        have hall' : (a :: a2 :: rest2).all isChanHandle = true :=
          List.all_eq_true.mpr hall
        refine ⟨{ inputs := (a :: a2 :: rest2).map handleToInCh, outBuf := [],
                  outCap := outCap, outClosed := false, stopClosed := false,
                  remaining := (a :: a2 :: rest2).length, task := FanTask.selecting },
          ?_, rfl, by simp⟩
        simp only [mkFanIn, if_pos hall']
  · intro p b
    exact ⟨_, rfl⟩
  · intro s i v rest h ht hrem hpend hroom
    have st1 : FanInStep s { s with
        inputs := s.inputs.set i { s.inputs.get ⟨i, h⟩ with pending := rest }
        task := FanTask.sending v } :=
      Or.inr (FanInTask.taskRecv s i v rest h ht hrem hpend)
    have st2 : FanInStep { s with
        inputs := s.inputs.set i { s.inputs.get ⟨i, h⟩ with pending := rest }
        task := FanTask.sending v }
      { s with
        inputs := s.inputs.set i { s.inputs.get ⟨i, h⟩ with pending := rest }
        outBuf := s.outBuf ++ [v]
        task := FanTask.selecting } :=
      Or.inr (FanInTask.taskSendDone _ v rfl hroom)
    exact ⟨_, Steps.tail (Steps.tail (Steps.refl s) st1) st2, rfl⟩

/-- Claim C4 witness: acceptance of two interface inputs, acceptance of
a single interface input, and the forward of a nat item on a concrete
running session. -/
theorem mkFanIn_accepts_witness :
    (∃ s, mkFanIn 2 c10Handles = Except.ok s ∧ s.task = FanTask.selecting ∧
      s.inputs.length = c10Handles.length)
    ∧ (∃ s, mkFanIn 2 [Handle.hChan Ty.tIface [] false] = Except.ok s)
    ∧ (∃ s', Steps FanInStep c4Sys s' ∧ s'.outBuf = c4Sys.outBuf ++ [TVal.vNat 7]) :=
  ⟨(mkFanIn_accepts 2).1 c10Handles (by decide) (by decide),
   (mkFanIn_accepts 2).2.1 [] false,
   (mkFanIn_accepts 2).2.2 c4Sys 0 (TVal.vNat 7) [] (by decide) rfl rfl rfl (by decide)⟩

/-- Claim C10: the two MakeFanIn revisions are not observably
equivalent, and the older one contradicts the shared test TestMakeFanIn
(case Two-closed expects a receive from the output to report closed
after close(stop)).  On the same call (capacity 2, two open idle
interface inputs) and the same schedule (the caller closes the stop
channel, then the merging task runs), the current revision terminates
with the output closed, while the older revision terminates its
goroutine with the output left open, and the output then stays open in
every continuation. -/
theorem c10_revisions_diverge :
    mkFanIn 2 c10Handles = Except.ok c10NewInit
    ∧ Steps FanInStep c10NewInit c10NewFinal
    ∧ c10NewFinal.task = FanTask.fdone
    ∧ c10NewFinal.outClosed = true
    ∧ mkFanInOldGen 2 c10Handles = Except.ok c10OldInit
    ∧ Steps OldFanInStep c10OldInit c10OldFinal
    ∧ c10OldFinal.task = OldTask.odone
    ∧ c10OldFinal.outClosed = false
    ∧ (∀ s', Steps OldFanInStep c10OldFinal s' → s'.outClosed = false) := by
  refine ⟨rfl, ?_, rfl, rfl, rfl, ?_, rfl, rfl, ?_⟩
  · exact Steps.tail
      (Steps.tail (Steps.refl c10NewInit)
        (Or.inl (FanInEnv.envCloseStop c10NewInit rfl)))
      (Or.inr (FanInTask.taskStopFire { c10NewInit with stopClosed := true } rfl rfl))
  · exact Steps.tail
      (Steps.tail (Steps.refl c10OldInit)
        (Or.inl (OldFanInEnv.envCloseStop c10OldInit rfl)))
      (Or.inr (OldFanInTask.oldCheckClosed { c10OldInit with stopClosed := true }
        rfl rfl rfl))
  · intro s' hr
    exact (oldDone_no_close c10OldFinal s' rfl rfl hr).2
